import Mathlib

/-!
Verification of the `chemical_elements` crate against its specification.

The Rust source is shallowly embedded in Lean 4:
* `f64` values are modelled as exact rationals (`ℚ`); the source's
  floating-point arithmetic is idealized as exact arithmetic.  Division by
  zero (which produces `NaN`/`inf` in Rust) yields `0` in `ℚ`, noted where
  relevant.
* `i32`/`i8` become `Int`, `usize`/`u16`/`u8` become `Nat`.
* Rust `HashMap`s are modelled as association lists; iteration order is the
  insertion order (all quantities computed from iteration are order
  insensitive sums or per-key lookups).
* Fallible code returns `Except`/`Option`; a Rust `panic!` is modelled as a
  distinguished outcome where a claim depends on it.
-/



/-- Peak model from `isotopic_pattern/peak.rs`: a theoretical isotopic peak
with an m/z coordinate and an abundance. -/
structure Peak where
  mz : ℚ
  intensity : ℚ
deriving DecidableEq, Repr

/-- Tolerance-based equality from `impl PartialEq<Peak> for Peak`: equal when
both coordinates agree within an absolute tolerance of `1e-3`. -/
def peakEqRust (a b : Peak) : Bool :=
  !(|a.mz - b.mz| > 1/1000 || |a.intensity - b.intensity| > 1/1000)

/-- Pattern model from `isotopic_pattern/peak.rs`: an ordered list of peaks
plus the origin (monoisotopic) m/z. -/
structure TheoreticalIsotopicPattern where
  peaks : List Peak
  origin : ℚ
deriving DecidableEq, Repr

namespace TheoreticalIsotopicPattern

/-- Equality from `impl PartialEq for TheoreticalIsotopicPattern`: the source
zips the two peak lists and compares pairwise with the tolerant peak equality
(note the source performs no length check). -/
def tidEqRust (a b : TheoreticalIsotopicPattern) : Bool :=
  (a.peaks.zip b.peaks).all fun (x, y) => peakEqRust x y

/-- Sum of the intensities of the peak list (`TheoreticalIsotopicPattern::total`). -/
def total (t : TheoreticalIsotopicPattern) : ℚ :=
  (t.peaks.map Peak.intensity).sum

/-- Scale every peak intensity by `factor` (`TheoreticalIsotopicPattern::scale_by`). -/
def scale_by (t : TheoreticalIsotopicPattern) (factor : ℚ) : TheoreticalIsotopicPattern :=
  { t with peaks := t.peaks.map fun p => { p with intensity := p.intensity * factor } }

/-- Normalize intensities so they sum to 1 (`TheoreticalIsotopicPattern::normalize`).
The source divides by the current total; for a zero total the Rust code produces
non-finite values while the rational model yields `0`. -/
def normalize (t : TheoreticalIsotopicPattern) : TheoreticalIsotopicPattern :=
  t.scale_by (1 / t.total)

/-- Embedding of the scan loop shared by `truncate_after` and
`truncate_after_ignore_below_shift_normalize`: walk the peaks accumulating the
running total; on the first peak where the total meets or exceeds `threshold`
report its index (the `break`); otherwise report no break.  The second
component is the value of the source's `total` variable once the loop ends. -/
def truncateScan (threshold : ℚ) : List Peak → ℚ → Nat → Option Nat × ℚ
  | [], total, _ => (none, total)
  | p :: rest, total, i =>
    let t := total + p.intensity
    if threshold ≤ t then (some i, t) else truncateScan threshold rest t (i + 1)

/-- Truncate the peak list once the cumulative intensity meets `threshold`,
then renormalize (`TheoreticalIsotopicPattern::truncate_after`).  When the
threshold is never reached the source's `stop_index` stays `0`. -/
def truncate_after (t : TheoreticalIsotopicPattern) (threshold : ℚ) :
    TheoreticalIsotopicPattern :=
  let scan := truncateScan threshold t.peaks 0 0
  let stop_index := scan.1.getD 0
  normalize { t with peaks := t.peaks.take (stop_index + 1) }

/-- Drop peaks with intensity below `threshold`, then renormalize
(`TheoreticalIsotopicPattern::ignore_below`). -/
def ignore_below (t : TheoreticalIsotopicPattern) (threshold : ℚ) :
    TheoreticalIsotopicPattern :=
  normalize { t with peaks := t.peaks.filter fun p => threshold ≤ p.intensity }

/-- Embedding of the filtering loop inside
`truncate_after_ignore_below_shift_normalize`: keep (and shift) peaks whose
intensity meets the rescaled threshold, subtracting dropped intensities from
the running `total`. -/
def fusedKeep (ignoreThreshold shift : ℚ) : List Peak → ℚ → List Peak × ℚ
  | [], total => ([], total)
  | p :: rest, total =>
    if ignoreThreshold ≤ p.intensity then
      let (acc, tot) := fusedKeep ignoreThreshold shift rest total
      ({ mz := p.mz + shift, intensity := p.intensity } :: acc, tot)
    else
      fusedKeep ignoreThreshold shift rest (total - p.intensity)

/-- Fused post-processing path
(`TheoreticalIsotopicPattern::truncate_after_ignore_below_shift_normalize`):
truncate at the threshold crossing, rescale the ignore threshold by the
accumulated total, drop-and-shift in one pass, and divide the survivors by the
adjusted total. -/
def truncate_after_ignore_below_shift_normalize (t : TheoreticalIsotopicPattern)
    (truncate_threshold ignore_below_threshold shift : ℚ) :
    TheoreticalIsotopicPattern :=
  let scan := truncateScan truncate_threshold t.peaks 0 0
  let stop_index := scan.1.getD 0
  let total := scan.2
  let kept := t.peaks.take (stop_index + 1)
  let ignoreT := ignore_below_threshold / total
  let (acc, tot) := fusedKeep ignoreT shift kept total
  { t with peaks := acc.map fun p => { p with intensity := p.intensity / tot } }

/-- Running cumulative intensity vector built by `IncrementalTruncationIter::new`. -/
def cumulativeOf (peaks : List Peak) : List ℚ :=
  peaks.foldl
    (fun state p =>
      if state.isEmpty then state ++ [p.intensity]
      else state ++ [state.getLastD 0 + p.intensity])
    []

/-- Copy a leading slice of the pattern and renormalize it
(`TheoreticalIsotopicPattern::slice_normalized`; the iterator only ever uses
ranges starting at `0`, so the embedding takes the end bound). -/
def slice_normalized (t : TheoreticalIsotopicPattern) (k : Nat) :
    TheoreticalIsotopicPattern :=
  normalize { peaks := t.peaks.take k, origin := t.origin }

/-- Embedding of `impl Iterator for IncrementalTruncationIter`, unrolled into
the full (finite) list of yielded patterns.  The argument is the iterator's
`index`, which starts at `len - 1` and decreases; a yield happens only while
`index > 0` and the cumulative intensity at `index` exceeds the threshold. -/
def incrGo (tpl : TheoreticalIsotopicPattern) (threshold : ℚ)
    (cumulative : List ℚ) : Nat → List TheoreticalIsotopicPattern
  | 0 => []
  | i + 1 =>
    if threshold < cumulative.getD (i + 1) 0 then
      tpl.slice_normalized (i + 2) :: incrGo tpl threshold cumulative i
    else []

/-- Sequence produced by `TheoreticalIsotopicPattern::incremental_truncation`:
normalize, build the cumulative vector, then run the iterator from
`len - 1` (saturating). -/
def incremental_truncation (t : TheoreticalIsotopicPattern) (threshold : ℚ) :
    List TheoreticalIsotopicPattern :=
  let template := t.normalize
  let cumulative := cumulativeOf template.peaks
  incrGo template threshold cumulative (template.peaks.length - 1)

end TheoreticalIsotopicPattern

/-! ## Element and composition data model (`element.rs`, `element_specification.rs`) -/

/-- Isotope record from `element.rs`: mass, relative abundance, neutron count
and shift relative to the most abundant isotope. -/
structure Isotope where
  mass : ℚ
  abundance : ℚ
  neutrons : Nat
  neutron_shift : Int
deriving DecidableEq, Repr

/-- Element record from `element.rs`.  The `isotopes` map (`HashMap<u16, Isotope>`)
is keyed by the isotope number and modelled as an association list. -/
structure Element where
  symbol : String
  isotopes : List (Nat × Isotope)
  most_abundant_isotope : Nat
  most_abundant_mass : ℚ
  min_neutron_shift : Int
  max_neutron_shift : Int
  element_number : Nat
deriving DecidableEq, Repr

/-- Lookup in the element's isotope map (`element.isotopes.get(&k)`). -/
def Element.isotopesGet (e : Element) (k : Nat) : Option Isotope :=
  (e.isotopes.find? fun kv => kv.1 == k).map Prod.snd

/-- Equality from `impl PartialEq<Element> for Element`: two elements are equal
when their symbols and most-abundant isotope numbers agree. -/
def elementEqRust (a b : Element) : Bool :=
  a.symbol == b.symbol && a.most_abundant_isotope == b.most_abundant_isotope

/-- Specification from `element_specification.rs`: an element together with an
isotope number, `0` meaning the most abundant isotope. -/
structure ElementSpecification where
  element : Element
  isotope : Nat
deriving DecidableEq, Repr

/-- Equality from `impl PartialEq for ElementSpecification`: element equality
(per `elementEqRust`) plus equal isotope numbers. -/
def specEqRust (a b : ElementSpecification) : Bool :=
  elementEqRust a.element b.element && a.isotope == b.isotope

/-- Mass contributed by one entry in `calc_mass`: the isotope's mass when a
fixed isotope is specified, otherwise the element's most abundant mass.  The
source indexes `element.isotopes[&elt_spec.isotope]`, which panics when the
isotope is absent; the embedding defaults to `0` there (no execution below
reaches that case). -/
def entryMass (spec : ElementSpecification) : ℚ :=
  if spec.isotope == 0 then spec.element.most_abundant_mass
  else ((spec.element.isotopesGet spec.isotope).map Isotope.mass).getD 0

/-! ### `composition_list.rs`: Vec-backed `ChemicalComposition` -/

/-- Vec-backed composition from `composition_list.rs`: entries in insertion
order plus the lazily populated mass cache. -/
structure ChemicalCompositionVec where
  composition : List (ElementSpecification × Int)
  mass_cache : Option ℚ
deriving DecidableEq, Repr

namespace ChemicalCompositionVec

/-- Empty composition (`ChemicalComposition::new`). -/
def new : ChemicalCompositionVec := ⟨[], none⟩

/-- Count for a specification, `0` when absent (`ChemicalComposition::get`). -/
def get (c : ChemicalCompositionVec) (spec : ElementSpecification) : Int :=
  ((c.composition.find? fun kv => specEqRust kv.1 spec).map Prod.snd).getD 0

/-- Replace the count of the first entry matching the specification, or append
a new entry.  This is `ChemicalComposition::set`, which locates the entry with
`find` and overwrites its count in place (keeping the stored key), else pushes. -/
def setEntries (spec : ElementSpecification) (count : Int) :
    List (ElementSpecification × Int) → List (ElementSpecification × Int)
  | [] => [(spec, count)]
  | kv :: rest =>
    if specEqRust kv.1 spec then (kv.1, count) :: rest
    else kv :: setEntries spec count rest

/-- Set the count for a specification; this clears the mass cache
(`ChemicalComposition::set`). -/
def set (c : ChemicalCompositionVec) (spec : ElementSpecification) (count : Int) :
    ChemicalCompositionVec :=
  { composition := setEntries spec count c.composition, mass_cache := none }

end ChemicalCompositionVec

namespace ChemicalCompositionVec

/-- Add `count` to the existing count (`ChemicalComposition::inc`); implemented
via `get` + `set`, so it clears the mass cache. -/
def inc (c : ChemicalCompositionVec) (spec : ElementSpecification) (count : Int) :
    ChemicalCompositionVec :=
  c.set spec (c.get spec + count)

/-- Mass computation ignoring the cache (`ChemicalComposition::calc_mass`). -/
def calc_mass (c : ChemicalCompositionVec) : ℚ :=
  c.composition.foldl (fun tot kv => tot + entryMass kv.1 * (kv.2 : ℚ)) 0

/-- Cached-or-computed mass (`ChemicalComposition::mass`). -/
def mass (c : ChemicalCompositionVec) : ℚ :=
  match c.mass_cache with
  | none => c.calc_mass
  | some val => val

/-- Compute and populate the cache, returning the mass and the updated
composition (`ChemicalComposition::fmass`; the Rust method mutates `self`). -/
def fmass (c : ChemicalCompositionVec) : ℚ × ChemicalCompositionVec :=
  match c.mass_cache with
  | none =>
    let total := c.mass
    (total, { c with mass_cache := some total })
  | some val => (val, c)

/-- Fold `inc` over the other composition's entries (`ChemicalComposition::_add_from`,
used by the `Add`/`AddAssign` operators in `props.rs`). -/
def _add_from (c other : ChemicalCompositionVec) : ChemicalCompositionVec :=
  other.composition.foldl (fun acc kv => acc.inc kv.1 kv.2) c

/-- Fold negated `inc` over the other composition's entries
(`ChemicalComposition::_sub_from` and the `Sub`/`SubAssign` operators). -/
def _sub_from (c other : ChemicalCompositionVec) : ChemicalCompositionVec :=
  other.composition.foldl (fun acc kv => acc.inc kv.1 (-kv.2)) c

/-- Scale every count in place (`ChemicalComposition::_mul_by`).  Note that the
source mutates the counts through `iter_mut` and leaves `mass_cache` untouched,
and the `Mul` operator clones the composition (cache included) before scaling. -/
def _mul_by (c : ChemicalCompositionVec) (scaler : Int) : ChemicalCompositionVec :=
  { c with composition := c.composition.map fun kv => (kv.1, kv.2 * scaler) }

/-- Equality from `impl PartialEq for ChemicalComposition` in
`composition_list.rs`: `Vec` equality of the entry lists (length plus pairwise
entry equality, entries compared with the source's `ElementSpecification`
equality); the mass cache is not compared. -/
def vecEqRust (a b : ChemicalCompositionVec) : Bool :=
  a.composition.length == b.composition.length &&
    ((a.composition.zip b.composition).all fun (x, y) =>
      specEqRust x.1 y.1 && x.2 == y.2)

end ChemicalCompositionVec

/-! ### `composition_map.rs`: HashMap-backed `ChemicalComposition` -/

/-- Map-backed composition from `composition_map.rs`.  The `HashMap` is
modelled as an association list without duplicate keys (keys compared with the
source's `ElementSpecification` equality); list order stands in for the map's
unspecified iteration order. -/
structure ChemicalCompositionMap where
  composition : List (ElementSpecification × Int)
  mass_cache : Option ℚ
deriving DecidableEq, Repr

namespace ChemicalCompositionMap

/-- Empty composition (`ChemicalComposition::new`). -/
def new : ChemicalCompositionMap := ⟨[], none⟩

/-- Lookup in the underlying map (`HashMap::get`). -/
def mapGet (m : List (ElementSpecification × Int)) (spec : ElementSpecification) :
    Option Int :=
  (m.find? fun kv => specEqRust kv.1 spec).map Prod.snd

/-- Insertion into the underlying map (`HashMap::insert`): replace the value of
an existing key in place, or add a new key. -/
def mapInsert (m : List (ElementSpecification × Int)) (spec : ElementSpecification)
    (count : Int) : List (ElementSpecification × Int) :=
  ChemicalCompositionVec.setEntries spec count m

/-- Count for a specification, `0` when absent (`ChemicalComposition::get`). -/
def get (c : ChemicalCompositionMap) (spec : ElementSpecification) : Int :=
  (mapGet c.composition spec).getD 0

/-- Insert the count and clear the mass cache (`ChemicalComposition::set`). -/
def set (c : ChemicalCompositionMap) (spec : ElementSpecification) (count : Int) :
    ChemicalCompositionMap :=
  { composition := mapInsert c.composition spec count, mass_cache := none }

/-- Add `count` to the existing count (`ChemicalComposition::inc`). -/
def inc (c : ChemicalCompositionMap) (spec : ElementSpecification) (count : Int) :
    ChemicalCompositionMap :=
  c.set spec (c.get spec + count)

/-- Mass computation ignoring the cache (`ChemicalComposition::calc_mass`). -/
def calc_mass (c : ChemicalCompositionMap) : ℚ :=
  c.composition.foldl (fun tot kv => tot + entryMass kv.1 * (kv.2 : ℚ)) 0

/-- Cached-or-computed mass (`ChemicalComposition::mass`). -/
def mass (c : ChemicalCompositionMap) : ℚ :=
  match c.mass_cache with
  | none => c.calc_mass
  | some val => val

/-- Compute and populate the cache (`ChemicalComposition::fmass`). -/
def fmass (c : ChemicalCompositionMap) : ℚ × ChemicalCompositionMap :=
  match c.mass_cache with
  | none =>
    let total := c.mass
    (total, { c with mass_cache := some total })
  | some val => (val, c)

/-- Fold `inc` over the other composition's entries (`ChemicalComposition::_add_from`). -/
def _add_from (c other : ChemicalCompositionMap) : ChemicalCompositionMap :=
  other.composition.foldl (fun acc kv => acc.inc kv.1 kv.2) c

/-- Fold negated `inc` over the other composition's entries
(`ChemicalComposition::_sub_from`). -/
def _sub_from (c other : ChemicalCompositionMap) : ChemicalCompositionMap :=
  other.composition.foldl (fun acc kv => acc.inc kv.1 (-kv.2)) c

/-- Scale every count in place (`ChemicalComposition::_mul_by`).  As in the Vec
variant, the source iterates with `iter_mut` and never touches `mass_cache`. -/
def _mul_by (c : ChemicalCompositionMap) (scaler : Int) : ChemicalCompositionMap :=
  { c with composition := c.composition.map fun kv => (kv.1, kv.2 * scaler) }

/-- Equality from `impl PartialEq for ChemicalComposition` in
`composition_map.rs`: `HashMap` equality — same size and every key of the left
map present in the right with the same value; the mass cache is not compared. -/
def mapEqRust (a b : ChemicalCompositionMap) : Bool :=
  a.composition.length == b.composition.length &&
    (a.composition.all fun kv => mapGet b.composition kv.1 == some kv.2)

end ChemicalCompositionMap

/-! ## Test fixture: a small two-isotope element -/

/-- Toy element used for concrete evaluations: two isotopes, the most abundant
one (number 10, mass 10, abundance 9/10) and a heavier one (number 11,
mass 11, abundance 1/10), mirroring the shape of the generated table entries
(for example carbon, whose `element_number` equals its most abundant isotope
number). -/
def eltX : Element :=
  { symbol := "X"
    isotopes := [(10, ⟨10, 9/10, 10, 0⟩), (11, ⟨11, 1/10, 11, 1⟩)]
    most_abundant_isotope := 10
    most_abundant_mass := 10
    min_neutron_shift := 0
    max_neutron_shift := 1
    element_number := 10 }

/-- Specification of `eltX` with no fixed isotope. -/
def specX : ElementSpecification := ⟨eltX, 0⟩

/-- Specification of `eltX` fixed to isotope 11. -/
def specX11 : ElementSpecification := ⟨eltX, 11⟩

/-- Zinc, copied from the generated periodic table (`table.rs`): five isotopes
at mass numbers 64 (most abundant), 66, 67, 68 and 70 — there is no isotope at
mass number 65, so no combination of neutron shifts can produce a total shift
of 1 and the order-1 probability of any pure-zinc composition is exactly zero.
(The engine's key enumeration probes mass numbers `element_number - 1` through
`element_number + isotopes.len() - 1`, so Zn-70 is never reached; Zn-66/67/68
are, leaving the shift-1 slot genuinely empty.) -/
def eltZn : Element :=
  { symbol := "Zn"
    isotopes := [(70, ⟨69925319/1000000, 6310/1000000, 70, 6⟩),
                 (67, ⟨66927127/1000000, 41020/1000000, 67, 3⟩),
                 (68, ⟨67924844/1000000, 190240/1000000, 68, 4⟩),
                 (66, ⟨65926033/1000000, 279750/1000000, 66, 2⟩),
                 (64, ⟨63929142/1000000, 482680/1000000, 64, 0⟩)]
    most_abundant_isotope := 64
    most_abundant_mass := 63929142/1000000
    min_neutron_shift := 0
    max_neutron_shift := 6
    element_number := 64 }

/-- Specification of `eltZn` with no fixed isotope. -/
def specZn : ElementSpecification := ⟨eltZn, 0⟩

/-- Descending index list `[i, i-1, ..., 1]`, the sequence of `index` values
the iterator visits. -/
def downRange : Nat → List Nat
  | 0 => []
  | i + 1 => (i + 1) :: downRange i

/-- Helper: reference form of the cumulative vector, as running prefix sums
starting from an accumulator. -/
def cumFrom (acc : ℚ) : List Peak → List ℚ
  | [] => []
  | p :: rest => (acc + p.intensity) :: cumFrom (acc + p.intensity) rest

/-! ## C8: the Poisson peak-count heuristic (`isotopic_pattern/poisson.rs`) -/

/-- Largest finite `f64` value, `(2 - 2^-52) * 2^1023`.  The embedding computes
in exact rationals; a value is modelled as non-finite exactly when its
magnitude exceeds this bound (the source's `is_infinite`). -/
def F64_MAX : ℚ := (2 ^ 53 - 1) * 2 ^ 971

/-- Model of `f64::is_infinite` over the exact rational value. -/
def ratIsInfinite (q : ℚ) : Bool := decide (F64_MAX < |q|)

/-- Embedding of the `for i in 1..max_iter` loop of
`poisson_approximate_n_peaks_of_impl`, with an explicit fuel counter equal to
the number of remaining iterations (`max_iter - i`).  State: current index
`i`, accumulated power `p_i`, accumulated factorial, running total `acc`. -/
def poissonLoop (lambda target : ℚ) (max_iter : Nat) :
    Nat → Nat → ℚ → ℚ → ℚ → Nat
  | 0, _, _, _, _ => max_iter
  | fuel + 1, i, p_i, factorial_acc, acc =>
    let p' := p_i * lambda
    let fact' := factorial_acc * (i : ℚ)
    let cur_intensity := p' / fact'
    if ratIsInfinite cur_intensity then i
    else
      let acc' := acc + cur_intensity
      if cur_intensity / acc' < target then i
      else poissonLoop lambda target max_iter fuel (i + 1) p' fact' acc'

/-- Embedding of `poisson_approximate_n_peaks_of_impl`. -/
def poisson_approximate_n_peaks_of_impl (mass lambda_factor threshold : ℚ)
    (max_iter : Nat) : Nat :=
  let lambda := mass / lambda_factor
  let target_threshold := 1 - threshold
  poissonLoop lambda target_threshold max_iter (max_iter - 1) 1 1 1 1

/-- Embedding of `poisson_approximate_n_peaks_of` (λ factor 1800, cap 255). -/
def poisson_approximate_n_peaks_of (mass threshold : ℚ) : Nat :=
  poisson_approximate_n_peaks_of_impl mass 1800 threshold 255

/-- Specification-side term of the Poisson recurrence: `λ^i / i!`. -/
def poissonTerm (lambda : ℚ) (i : Nat) : ℚ :=
  lambda ^ i / (Nat.factorial i : ℚ)

/-- Specification-side running total after `i` terms: `1 + Σ_{j=1}^{i} λ^j/j!`. -/
def poissonAcc (lambda : ℚ) (i : Nat) : ℚ :=
  1 + ((List.range' 1 i).map (poissonTerm lambda)).sum

/-- Specification-side stop condition at index `i`: the term is non-finite, or
its ratio to the running total falls below the target. -/
def poissonStop (lambda target : ℚ) (i : Nat) : Bool :=
  ratIsInfinite (poissonTerm lambda i) ||
    decide (poissonTerm lambda i / poissonAcc lambda i < target)

/-- Specification-side result, following the claim's words: the first index
`1 ≤ i < 255` satisfying the stop condition, else `255`. -/
def poissonFirstStop (mass threshold : ℚ) : Nat :=
  ((List.range' 1 254).find? fun i =>
    poissonStop (mass / 1800) (1 - threshold) i).getD 255

/-! ## BRAIN embedding (`isotopic_pattern/baffling.rs`) -/

/-- Pair of coefficient vectors from `baffling.rs`: elementary symmetric
polynomial coefficients and power sums. -/
structure PolynomialParameters where
  elementary_symmetric_polynomial : List ℚ
  power_sum : List ℚ
deriving DecidableEq, Repr

/-- Vieta coefficients (`fn vietes`): `esp[i] = (-1)^i * a[n-1-i] / a[n-1]`.
The source indexes `coefficients[n - 1]` and `coefficients[n - i - 1]`
directly (panicking on an empty input, which no caller produces); the
embedding defaults absent entries to `0`. -/
def vietes (coefficients : List ℚ) : List ℚ :=
  let n := coefficients.length
  let tail := coefficients.getD (n - 1) 0
  (List.range n).map fun i =>
    let sign : ℚ := if i % 2 == 0 then 1 else -1
    sign * coefficients.getD (n - i - 1) 0 / tail

/-- One newly computed power sum (`PolynomialParameters::update_power_sum`
loop body for `k > 0`): the alternating Newton-identity sum, where the sign
variable starts at `-1` and is flipped before each use. -/
def updatePowerSumStep (esp ps : List ℚ) (k : Nat) : ℚ :=
  let inner := (List.range' 1 (k - 1)).foldl
    (fun (state : ℚ × ℚ) j =>
      let sign := -state.1
      (sign, state.2 + sign * esp.getD j 0 * ps.getD (k - j) 0))
    (-1, 0)
  inner.2 + -inner.1 * esp.getD k 0 * (k : ℚ)

/-- Extend the power sums up to the length of the elementary symmetric
polynomial vector (`PolynomialParameters::update_power_sum`). -/
def update_power_sum (p : PolynomialParameters) : PolynomialParameters :=
  let b := p.power_sum.length
  let e := p.elementary_symmetric_polynomial.length
  let ps := (List.range' b (e - b)).foldl
    (fun ps k =>
      if k == 0 then ps ++ [0]
      else ps ++ [updatePowerSumStep p.elementary_symmetric_polynomial ps k])
    p.power_sum
  { p with power_sum := ps }

/-- One newly computed elementary symmetric polynomial coefficient
(`PolynomialParameters::update_elementary_symmetric_polynomial` loop body for
`0 < k ≤ order`). -/
def updateEspStep (ps esp : List ℚ) (k : Nat) : ℚ :=
  (((List.range' 1 k).map fun j =>
    (if j % 2 == 1 then (1 : ℚ) else -1) * ps.getD j 0 * esp.getD (k - j) 0).sum) /
    (k : ℚ)

/-- Extend the elementary symmetric polynomial coefficients up to the length
of the power-sum vector
(`PolynomialParameters::update_elementary_symmetric_polynomial`).  The source
compares `k > (order as usize)`; for a negative `order` that cast wraps to a
huge value and the comparison is false, which the embedding mirrors by
requiring `0 ≤ order` in the zero-padding branch. -/
def update_elementary_symmetric_polynomial (p : PolynomialParameters)
    (order : Int) : PolynomialParameters :=
  let b := p.elementary_symmetric_polynomial.length
  let e := p.power_sum.length
  let esp := (List.range' b (e - b)).foldl
    (fun esp (k : Nat) =>
      if k == 0 then esp ++ [1]
      else if 0 ≤ order ∧ (k : Int) > order then esp ++ [0]
      else esp ++ [updateEspStep p.power_sum esp k])
    p.elementary_symmetric_polynomial
  { p with elementary_symmetric_polynomial := esp }

/-- Run whichever Newton recursion brings the shorter vector up to the length
of the longer one (`PolynomialParameters::newton_optimization`). -/
def newton_optimization (p : PolynomialParameters) (order : Int) :
    PolynomialParameters :=
  let psn := p.power_sum.length
  let espn := p.elementary_symmetric_polynomial.length
  if psn < espn then update_power_sum p
  else if psn == espn then p
  else update_elementary_symmetric_polynomial p order

/-- Per-isotope coefficient accumulator
(`PolynomialParameters::isotopic_coefficients`): walk the neutron shifts from
smallest to largest, look up isotope number `n + element_number - i - 1`,
pad the accumulator with zeros up to the isotope's order `max_shift - shift`,
and append `coef * abundance` (`coef` is the isotope mass in mass-weighted
mode).  The source panics when an isotope would land before the end of the
accumulator ("Unordered isotopes"); the embedding leaves the accumulator
unchanged there (no well-formed catalog entry reaches that branch). -/
def isotopic_coefficients (element : Element) (with_mass : Bool)
    (accumulator : List ℚ) : List ℚ :=
  let max_isotope_number := element.max_neutron_shift
  let mns := element.min_neutron_shift
  let monoisotopic_number := element.element_number
  let n := element.isotopes.length
  ((List.range (max_isotope_number + 1 - mns).toNat).map fun idx : Nat => mns + (idx : Int)).foldl
    (fun acc z =>
      let i := (z - mns).toNat
      let k := ((n : Int) + (monoisotopic_number : Int) - (i : Int) - 1).toNat
      match element.isotopesGet k with
      | none => acc
      | some isotope =>
        let current_order := (max_isotope_number - isotope.neutron_shift).toNat
        let coef := if with_mass then isotope.mass else 1
        if current_order > acc.length then
          (acc ++ List.replicate (current_order - acc.length) 0) ++
            [coef * isotope.abundance]
        else if current_order == acc.length then
          acc ++ [coef * isotope.abundance]
        else acc)
    accumulator

/-- Build the polynomial parameters of one element
(`PolynomialParameters::from_element`): Vieta coefficients from the isotope
accumulator, then a Newton run to derive the power sums. -/
def polynomialParametersFromElement (element : Element) (with_mass : Bool) :
    PolynomialParameters :=
  let accumulator := isotopic_coefficients element with_mass []
  let esp := vietes accumulator
  let order := accumulator.length - 1
  newton_optimization ⟨esp, []⟩ (order : Int)

/-- Per-element constants (`PhiConstants`): the count-weighted and
mass-weighted polynomial parameters plus the maximum order computed. -/
structure PhiConstants where
  order : Int
  element_key : String
  element_coefficients : PolynomialParameters
  mass_coefficients : PolynomialParameters
deriving DecidableEq, Repr

/-- Build the constants of one element (`PhiConstants::from_element`). -/
def PhiConstants.from_element (element : Element) : PhiConstants :=
  { element_key := element.symbol
    order := element.max_neutron_shift
    element_coefficients := polynomialParametersFromElement element false
    mass_coefficients := polynomialParametersFromElement element true }

/-- Per-computation constants store (`IsotopicConstants`): an association
list keyed by element symbol, plus the working order. -/
structure IsotopicConstants where
  constants : List (String × PhiConstants)
  order : Int
deriving DecidableEq, Repr

namespace IsotopicConstants

/-- Lookup by symbol (`IsotopicConstants::get`). -/
def get (ic : IsotopicConstants) (symbol : String) : Option PhiConstants :=
  (ic.constants.find? fun kv => kv.1 == symbol).map Prod.snd

/-- Append a keyed entry (`IsotopicConstants::set`). -/
def set (ic : IsotopicConstants) (symbol : String) (c : PhiConstants) :
    IsotopicConstants :=
  { ic with constants := ic.constants ++ [(symbol, c)] }

/-- Insert freshly built constants for an element unless already present
(`IsotopicConstants::add`). -/
def add (ic : IsotopicConstants) (element : Element) : IsotopicConstants :=
  match ic.get element.symbol with
  | some _ => ic
  | none => ic.set element.symbol (PhiConstants.from_element element)

/-- Extend every element's vectors to the working order
(`IsotopicConstants::update`): skip elements already beyond the working
order, zero-pad the others' elementary symmetric polynomial vectors over
`elt.order..self.order + 1`, reset each element's order to the new vector
length, and re-run the Newton recursion. -/
def update (ic : IsotopicConstants) : IsotopicConstants :=
  { ic with constants := ic.constants.map fun kv =>
      let elt_params := kv.2
      if ic.order < elt_params.order then kv
      else
        let pad := (ic.order + 1 - elt_params.order).toNat
        let ec := { elt_params.element_coefficients with
          elementary_symmetric_polynomial :=
            elt_params.element_coefficients.elementary_symmetric_polynomial ++
              List.replicate pad 0 }
        let mc := { elt_params.mass_coefficients with
          elementary_symmetric_polynomial :=
            elt_params.mass_coefficients.elementary_symmetric_polynomial ++
              List.replicate pad 0 }
        let order2 : Int := (ec.elementary_symmetric_polynomial.length : Int)
        (kv.1, { elt_params with
          order := order2
          element_coefficients := newton_optimization ec order2
          mass_coefficients := newton_optimization mc order2 }) }

/-- Count-weighted power sum of one element at one order
(`IsotopicConstants::nth_element_power_sum`; the source panics on a missing
symbol or index, the embedding defaults to `0`). -/
def nth_element_power_sum (ic : IsotopicConstants) (symbol : String)
    (order : Nat) : ℚ :=
  match ic.get symbol with
  | some phi => phi.element_coefficients.power_sum.getD order 0
  | none => 0

/-- Mass-weighted power sum of one element at one order
(`IsotopicConstants::nth_element_power_sum_mass`). -/
def nth_element_power_sum_mass (ic : IsotopicConstants) (symbol : String)
    (order : Nat) : ℚ :=
  match ic.get symbol with
  | some phi => phi.mass_coefficients.power_sum.getD order 0
  | none => 0

end IsotopicConstants

/-! ### Constants cache (`IsotopicConstantsCache`) -/

/-- Lookup in the cache's `HashMap<&str, PhiConstants>` model. -/
def cacheLookup (cache : List (String × PhiConstants)) (symbol : String) :
    Option PhiConstants :=
  (cache.find? fun kv => kv.1 == symbol).map Prod.snd

/-- Insertion into the cache map: replace the value under an existing key in
place, or add the key. -/
def cacheInsert (symbol : String) (c : PhiConstants) :
    List (String × PhiConstants) → List (String × PhiConstants)
  | [] => [(symbol, c)]
  | kv :: rest =>
    if kv.1 == symbol then (kv.1, c) :: rest
    else kv :: cacheInsert symbol c rest

/-- Store received constants unless the cached entry has strictly higher
order (`IsotopicConstantsCache::receive`): a vacant slot always stores, an
occupied slot stores only when the cached order does not exceed the new
order; the returned flag reports whether the store happened. -/
def cacheReceive (cache : List (String × PhiConstants)) (symbol : String)
    (constants : PhiConstants) : Bool × List (String × PhiConstants) :=
  match cacheLookup cache symbol with
  | none => (true, cacheInsert symbol constants cache)
  | some ent =>
    if ent.order > constants.order then (false, cache)
    else (true, cacheInsert symbol constants cache)

/-- Drain a batch of per-call constants back into the cache
(`IsotopicConstantsCache::receive_from`), and more generally the effect of
any sequence of `receive` calls. -/
def cacheReceiveAll (cache : List (String × PhiConstants))
    (ops : List (String × PhiConstants)) : List (String × PhiConstants) :=
  ops.foldl (fun ch op => (cacheReceive ch op.1 op.2).2) cache

/-! ## Formula parsing (`formula.rs`, `element_specification.rs`) -/

/-- Periodic table model (`PeriodicTable`): symbol-keyed element map. -/
def PeriodicTable := List (String × Element)

/-- Lookup (`PeriodicTable::get`). -/
def ptGet (pt : PeriodicTable) (symbol : String) : Option Element :=
  (pt.find? fun kv => kv.1 == symbol).map Prod.snd

/-- Outcome of running parser code that can succeed, fail with a typed error,
or panic (the embedding keeps Rust panics distinct from typed errors). -/
inductive ParseOutcome (ε : Type) (α : Type)
  | ok (a : α)
  | err (e : ε)
  | panicked
deriving DecidableEq, Repr

/-- Error enum from `formula.rs`. -/
inductive FormulaParserError
  | InvalidStart
  | ElementCountMalformed
  | IsotopeCountMalformed
  | GroupCountMalformed
  | IncompleteFormula
  | InvalidElement
deriving DecidableEq, Repr

/-- State enum from `formula.rs`. -/
inductive FormulaParserState
  | New
  | Element
  | Isotope
  | IsotopeToCount
  | Count
  | Group
  | GroupToGroupCount
  | GroupCount
deriving DecidableEq, Repr

/-- Parser scratch state (`struct FormulaParser`). -/
structure FormulaParser where
  element_start : Nat := 0
  element_end : Nat := 0
  isotope_start : Nat := 0
  isotope_end : Nat := 0
  count_start : Nat := 0
  count_end : Nat := 0
  paren_stack : Int := 0
  group_start : Nat := 0
  group_end : Nat := 0
  group_count_start : Nat := 0
  group_count_end : Nat := 0
  state : FormulaParserState := .New
deriving DecidableEq, Repr

/-- Substring `string[a..b]` (the source slices by byte offsets, which for the
ASCII formula alphabet coincide with character offsets). -/
def strSlice (s : List Char) (a b : Nat) : List Char :=
  (s.drop a).take (b - a)

/-- Decimal integer parsing (`str::parse::<i32>` / `::<u16>` on a digit
slice): fails on an empty slice or any non-digit character.  The embedding
uses unbounded integers, so the numeric overflow failure mode of the source
is not represented. -/
def parseNat? (cs : List Char) : Option Nat :=
  if cs.isEmpty || !(cs.all Char.isDigit) then none
  else some (cs.foldl (fun n c => n * 10 + (c.toNat - 48)) 0)

/-- Element lookup done by `FormulaParser::parse_element_from_string`: the
source indexes `periodic_table[elt_sym]`, which panics when the symbol is
not in the table (it does not return the parser's typed error). -/
def parse_element_from_string (pt : PeriodicTable) (s : List Char)
    (ps : FormulaParser) : Option Element :=
  ptGet pt (String.mk (strSlice s ps.element_start ps.element_end))

/-- Character handler for `FormulaParserState::Group`
(`FormulaParser::handle_group_state`). -/
def handle_group_state (c : Char) (i : Nat) (ps : FormulaParser) : FormulaParser :=
  if c = ')' then
    let ps := { ps with paren_stack := ps.paren_stack - 1 }
    if ps.paren_stack = 0 then
      { ps with group_end := i, state := .GroupToGroupCount }
    else ps
  else if c = '(' then { ps with paren_stack := ps.paren_stack + 1 }
  else ps

/-- Main loop of `FormulaParser::parse_formula_with_table`, one constructor
per parser state, processing the characters of the input in order with their
indices; `parseGroup` is the recursive parse applied to a parenthesized
group's slice.  When the characters are exhausted the source's trailing
`match` finalizes the accumulator. -/
def parseChars (parseGroup : List Char → ParseOutcome FormulaParserError ChemicalCompositionMap)
    (pt : PeriodicTable) (s : List Char) :
    List Char → Nat → FormulaParser → ChemicalCompositionMap →
    ParseOutcome FormulaParserError ChemicalCompositionMap
  | [], i, ps, acc =>
    match ps.state with
    | .Element =>
      let ps := { ps with element_end := i }
      match parse_element_from_string pt s ps with
      | none => .panicked
      | some elt => .ok (acc.inc ⟨elt, 0⟩ 1)
    | .Count =>
      let ps := { ps with count_end := i }
      match parseNat? (strSlice s ps.count_start ps.count_end) with
      | none => .err .ElementCountMalformed
      | some count =>
        let isotopeRes : ParseOutcome FormulaParserError Nat :=
          if ps.isotope_end ≠ ps.isotope_start then
            match parseNat? (strSlice s ps.isotope_start ps.isotope_end) with
            | none => .err .IsotopeCountMalformed
            | some iso => .ok iso
          else .ok 0
        match isotopeRes with
        | .err e => .err e
        | .panicked => .panicked
        | .ok isotope =>
          match parse_element_from_string pt s ps with
          | none => .panicked
          | some elt => .ok (acc.inc ⟨elt, isotope⟩ (count : Int))
    | .GroupToGroupCount =>
      match parseGroup (strSlice s ps.group_start ps.group_end) with
      | .err e => .err e
      | .panicked => .panicked
      | .ok group => .ok (acc._add_from group)
    | .GroupCount =>
      let ps := { ps with group_count_end := i }
      match parseGroup (strSlice s ps.group_start ps.group_end) with
      | .err e => .err e
      | .panicked => .panicked
      | .ok group =>
        match parseNat? (strSlice s ps.group_count_start ps.group_count_end) with
        | none => .err .GroupCountMalformed
        | some group_count => .ok (acc._add_from (group._mul_by (group_count : Int)))
    | _ => .err .IncompleteFormula
  | c :: rest, i, ps, acc =>
    match ps.state with
    | .New =>
      if c.isAlpha && c.isUpper then
        parseChars parseGroup pt s rest (i + 1)
          { ps with element_start := i, state := .Element } acc
      else if c = '(' then
        parseChars parseGroup pt s rest (i + 1)
          { ps with paren_stack := ps.paren_stack + 1, group_start := i + 1, state := .Group } acc
      else .err .InvalidStart
    | .Group =>
      parseChars parseGroup pt s rest (i + 1) (handle_group_state c i ps) acc
    | .Element =>
      if c.isAlpha then
        if c.isUpper then
          let ps := { ps with element_end := i }
          match parse_element_from_string pt s ps with
          | none => .panicked
          | some elt =>
            parseChars parseGroup pt s rest (i + 1)
              { ps with state := .Element, element_start := i, element_end := 0 }
              (acc.inc ⟨elt, 0⟩ 1)
        else parseChars parseGroup pt s rest (i + 1) ps acc
      else if c.isDigit then
        parseChars parseGroup pt s rest (i + 1)
          { ps with element_end := i, count_start := i, state := .Count } acc
      else if c = '[' then
        parseChars parseGroup pt s rest (i + 1)
          { ps with isotope_start := i + 1, state := .Isotope } acc
      else if c = '(' then
        let ps := { ps with element_end := i }
        match parse_element_from_string pt s ps with
        | none => .panicked
        | some elt =>
          parseChars parseGroup pt s rest (i + 1)
            { ps with paren_stack := ps.paren_stack + 1, group_start := i + 1, state := .Group }
            (acc.inc ⟨elt, 0⟩ 1)
      else parseChars parseGroup pt s rest (i + 1) ps acc
    | .Isotope =>
      if c = ']' then
        parseChars parseGroup pt s rest (i + 1)
          { ps with isotope_end := i, state := .IsotopeToCount } acc
      else if !c.isDigit then .err .IsotopeCountMalformed
      else parseChars parseGroup pt s rest (i + 1) ps acc
    | .Count =>
      if !c.isDigit then
        let ps := { ps with count_end := i }
        match parseNat? (strSlice s ps.count_start ps.count_end) with
        | none => .err .ElementCountMalformed
        | some count =>
          let isotopeRes : ParseOutcome FormulaParserError Nat :=
            if ps.isotope_end ≠ ps.isotope_start then
              match parseNat? (strSlice s ps.isotope_start ps.isotope_end) with
              | none => .err .IsotopeCountMalformed
              | some iso => .ok iso
            else .ok 0
          match isotopeRes with
          | .err e => .err e
          | .panicked => .panicked
          | .ok isotope =>
            match parse_element_from_string pt s ps with
            | none => .panicked
            | some elt =>
              let acc := acc.inc ⟨elt, isotope⟩ (count : Int)
              let ps := { ps with isotope_start := 0, isotope_end := 0 }
              if c = '(' then
                parseChars parseGroup pt s rest (i + 1)
                  { ps with paren_stack := 1, group_start := i + 1, state := .Group } acc
              else if c.isAlpha && c.isUpper then
                parseChars parseGroup pt s rest (i + 1)
                  { ps with element_start := i, state := .Element } acc
              else .err .InvalidElement
      else parseChars parseGroup pt s rest (i + 1) ps acc
    | .IsotopeToCount =>
      if c.isDigit then
        parseChars parseGroup pt s rest (i + 1)
          { ps with count_start := i, state := .Count } acc
      else
        match parse_element_from_string pt s ps with
        | none => .panicked
        | some elt =>
          match parseNat? (strSlice s ps.isotope_start ps.isotope_end) with
          | none => .err .IsotopeCountMalformed
          | some isotope =>
            let acc := acc.inc ⟨elt, isotope⟩ 1
            let ps := { ps with isotope_start := 0, isotope_end := 0 }
            if c = '(' then
              parseChars parseGroup pt s rest (i + 1)
                { ps with paren_stack := ps.paren_stack + 1, group_start := i + 1, state := .Group } acc
            else if c.isUpper then
              parseChars parseGroup pt s rest (i + 1)
                { ps with element_start := i, state := .Element } acc
            else .err .IsotopeCountMalformed
    | .GroupToGroupCount =>
      if !c.isDigit then
        match parseGroup (strSlice s ps.group_start ps.group_end) with
        | .err e => .err e
        | .panicked => .panicked
        | .ok group =>
          let acc := acc._add_from group
          let ps := { ps with group_start := 0, group_end := 0 }
          if c = '(' then
            parseChars parseGroup pt s rest (i + 1)
              { ps with paren_stack := 1, group_start := i + 1, state := .Group } acc
          else if c.isAlpha && c.isUpper then
            parseChars parseGroup pt s rest (i + 1)
              { ps with element_start := i, state := .Element } acc
          else .err .InvalidElement
      else
        parseChars parseGroup pt s rest (i + 1)
          { ps with group_count_start := i, state := .GroupCount } acc
    | .GroupCount =>
      if !c.isDigit then
        let ps := { ps with group_count_end := i }
        match parseGroup (strSlice s ps.group_start ps.group_end) with
        | .err e => .err e
        | .panicked => .panicked
        | .ok group =>
          let ps := { ps with group_start := 0, group_end := 0 }
          match parseNat? (strSlice s ps.group_count_start ps.group_count_end) with
          | none => .err .ElementCountMalformed
          | some group_count =>
            let acc := acc._add_from (group._mul_by (group_count : Int))
            if c = '(' then
              parseChars parseGroup pt s rest (i + 1)
                { ps with paren_stack := 1, group_start := i + 1, state := .Group } acc
            else if c.isAlpha && c.isUpper then
              parseChars parseGroup pt s rest (i + 1)
                { ps with element_start := i, state := .Element } acc
            else .err .InvalidElement
      else parseChars parseGroup pt s rest (i + 1) ps acc

/-- Fuel-indexed recursive formula parse (`FormulaParser::parse_formula_with_table`;
the fuel bounds the group-nesting depth, which the input length dominates). -/
def parseFormulaFuel : Nat → PeriodicTable → List Char →
    ParseOutcome FormulaParserError ChemicalCompositionMap
  | 0, _, _ => .panicked
  | fuel + 1, pt, s => parseChars (parseFormulaFuel fuel pt) pt s s 0 {} ChemicalCompositionMap.new

/-- Embedding of `parse_formula` / `ChemicalComposition::parse` against a
given table. -/
def parse_formula (pt : PeriodicTable) (s : String) :
    ParseOutcome FormulaParserError ChemicalCompositionMap :=
  parseFormulaFuel (s.toList.length + 1) pt s.toList

/-- Error enum from `element_specification.rs`. -/
inductive ElementSpecificationParsingError
  | UnclosedIsotope
  | UnknownElement
deriving DecidableEq, Repr

/-- Embedding of `ElementSpecification::parse_with`: scan for an isotope
bracket, look the symbol up in the table — returning a typed
`UnknownElement` error when absent — and `unwrap` the isotope number parse
(a panic on non-numeric isotope text). -/
def elementSpecificationParseWith (s : List Char) (pt : PeriodicTable) :
    ParseOutcome ElementSpecificationParsingError ElementSpecification :=
  let n := s.length
  let scan := (List.range n).foldl
    (fun (st : Nat × Nat × Nat × Option ElementSpecificationParsingError) i =>
      let (elt_end, iso_start, iso_end, e) := st
      match e with
      | some _ => st
      | none =>
        let c := s.getD i ' '
        if c = '[' then
          if n > i then (i, i + 1, iso_end, none)
          else (i, iso_start, iso_end, some .UnclosedIsotope)
        else if c = ']' then (elt_end, iso_start, i, none)
        else st)
    (n, n, n, none)
  match scan.2.2.2 with
  | some e => .err e
  | none =>
    let elt_sym := String.mk (strSlice s 0 scan.1)
    match ptGet pt elt_sym with
    | none => .err .UnknownElement
    | some element =>
      if scan.2.1 ≠ scan.2.2.1 then
        match parseNat? (strSlice s scan.2.1 scan.2.2.1) with
        | none => .panicked
        | some isotope => .ok ⟨element, isotope⟩
      else .ok ⟨element, 0⟩

/-! ### Isotopic distribution (`IsotopicDistribution`) -/

/-- Charge-carrier constant from `mz.rs` (`PROTON = 1.007276`). -/
def PROTON : ℚ := 1007276/1000000

/-- Embedding of `mass_charge_ratio` from `mz.rs`:
`(neutral_mass + z·carrier) / |z|`. -/
def mass_charge_ratio (neutral_mass : ℚ) (z : Int) (charge_carrier : ℚ) : ℚ :=
  (neutral_mass + (z : ℚ) * charge_carrier) / |(z : ℚ)|

/-- Upper bound on distinguishable isotopologues (`fn max_variants`; renamed
here to avoid clashing with the structure field of the same name):
sum of each element's maximum neutron shift times its count. -/
def compositionMaxVariants (composition : ChemicalCompositionMap) : Int :=
  composition.composition.foldl
    (fun acc kv => acc + kv.1.element.max_neutron_shift * kv.2) 0

/-- Embedding of `guess_npeaks`: the Poisson estimate at 99.99% capped at
`max_npeaks`. -/
def guess_npeaks (composition : ChemicalCompositionMap) (max_npeaks : Int) : Int :=
  min (poisson_approximate_n_peaks_of composition.mass (9999/10000) : Int) max_npeaks

/-- Peak-count selector (`NumPeaksSpec`). -/
inductive NumPeaksSpec
  | Guess
  | FixedCount (i : Int)
  | PercentSignal (val : ℚ)
deriving DecidableEq, Repr

/-- Embedding of `NumPeaksSpec::num_peaks`. -/
def NumPeaksSpec.num_peaks (spec : NumPeaksSpec)
    (composition : ChemicalCompositionMap) : Int :=
  match spec with
  | .Guess => guess_npeaks composition 300
  | .FixedCount i => max (i - 1) 0
  | .PercentSignal val =>
    max ((poisson_approximate_n_peaks_of composition.mass val : Int) - 1) 0

/-- Embedding of `impl From<i32> for NumPeaksSpec`: `0` means guess. -/
def NumPeaksSpec.fromI32 (value : Int) : NumPeaksSpec :=
  if value = 0 then .Guess else .FixedCount value

/-- Distribution state (`struct IsotopicDistribution`). -/
structure IsotopicDistribution where
  composition : ChemicalCompositionMap
  constants : IsotopicConstants
  order : Int
  average_mass : ℚ
  monoisotopic_peak : Peak
  max_variants : Int
deriving DecidableEq, Repr

namespace IsotopicDistribution

/-- Embedding of `IsotopicDistribution::update_order`: `-1` means "all
variants", anything else is clamped to `max_variants`; the constants' working
order follows. -/
def update_order (d : IsotopicDistribution) (order : Int) : IsotopicDistribution :=
  let o := if order = -1 then d.max_variants else min order d.max_variants
  { d with order := o, constants := { d.constants with order := o } }

/-- Embedding of `IsotopicDistribution::make_monoisotopic_peak`: the m/z is
the composition mass; the intensity is the product of each entry's
most-abundant-isotope abundance (the source accumulates `ln` values and
exponentiates — `exp(Σ ln aᵢ) = Π aᵢ` exactly, the log space being a
numerical-stability measure; a missing isotope entry would panic in the
source and contributes the `ln 0 → exp = 0` default here). -/
def make_monoisotopic_peak (d : IsotopicDistribution) : Peak :=
  let mz := d.composition.mass
  let intensity := d.composition.composition.foldl
    (fun acc kv => acc *
      (((kv.1.element.isotopesGet kv.1.element.most_abundant_isotope).map
        Isotope.abundance).getD 0)) 1
  ⟨mz, intensity⟩

/-- Embedding of `IsotopicDistribution::fill_from_composition` (the private
constructor: resolve the peak count, clamp the order, and precompute the
monoisotopic peak). -/
def fill_from_composition (composition : ChemicalCompositionMap)
    (order : NumPeaksSpec) : IsotopicDistribution :=
  let order := order.num_peaks composition
  let inst : IsotopicDistribution :=
    { constants := ⟨[], 0⟩
      max_variants := compositionMaxVariants composition
      composition := composition
      order := 0
      average_mass := 0
      monoisotopic_peak := ⟨0, 0⟩ }
  let inst := inst.update_order (order + 1)
  { inst with monoisotopic_peak := inst.make_monoisotopic_peak }

end IsotopicDistribution

namespace IsotopicDistribution

/-- Embedding of `IsotopicDistribution::populate_constants`: build constants
for every element of the composition, then update them to the working order. -/
def populate_constants (d : IsotopicDistribution) : IsotopicDistribution :=
  let constants := d.composition.composition.foldl
    (fun ic kv => ic.add kv.1.element) d.constants
  { d with constants := constants.update }

/-- Embedding of `IsotopicDistribution::from_composition`. -/
def from_composition (composition : ChemicalCompositionMap)
    (order : NumPeaksSpec) : IsotopicDistribution :=
  (fill_from_composition composition order).populate_constants

/-- Embedding of `IsotopicDistribution::phi_for`: count-weighted sum of the
elements' power sums at one order. -/
def phi_for (d : IsotopicDistribution) (order : Nat) : ℚ :=
  d.composition.composition.foldl
    (fun phi kv =>
      phi + d.constants.nth_element_power_sum kv.1.element.symbol order * (kv.2 : ℚ))
    0

/-- Embedding of `IsotopicDistribution::phi_mass_for`: like `phi_for` but
with one fewer count for the perturbed element, plus its mass-weighted power
sum. -/
def phi_mass_for (d : IsotopicDistribution) (element : ElementSpecification)
    (order : Nat) : ℚ :=
  let phi := d.composition.composition.foldl
    (fun phi kv =>
      let coef : Int := if elementEqRust kv.1.element element.element
        then kv.2 - 1 else kv.2
      phi + d.constants.nth_element_power_sum kv.1.element.symbol order * (coef : ℚ))
    0
  phi + d.constants.nth_element_power_sum_mass element.element.symbol order

/-- Embedding of `IsotopicDistribution::phi_values`: `0` followed by
`phi_for i` for `i = 1..order`. -/
def phi_values (d : IsotopicDistribution) : List ℚ :=
  0 :: (List.range' 1 d.order.toNat).map d.phi_for

/-- Embedding of `IsotopicDistribution::phi_values_mass`. -/
def phi_values_mass (d : IsotopicDistribution) (element : ElementSpecification) :
    List ℚ :=
  0 :: (List.range' 1 d.order.toNat).map (d.phi_mass_for element)

/-- Embedding of `IsotopicDistribution::probability_vector`: run the Newton
recursion on the combined power sums and scale coefficient `i` by
`(-1)^i * monoisotopic intensity`. -/
def probability_vector (d : IsotopicDistribution) : List ℚ :=
  let phi_vector := d.phi_values
  let params := newton_optimization ⟨[], phi_vector⟩ d.max_variants
  params.elementary_symmetric_polynomial.mapIdx fun i x =>
    x * (d.monoisotopic_peak.intensity * (if i % 2 == 0 then (1 : ℚ) else -1))

/-- Embedding of `IsotopicDistribution::build_polynomial_map`: per element,
the elementary symmetric polynomial derived from the mass-weighted power
sums. -/
def build_polynomial_map (d : IsotopicDistribution) : List (String × List ℚ) :=
  d.composition.composition.map fun kv =>
    let power_sum := d.phi_values_mass kv.1
    let param := newton_optimization ⟨[], power_sum⟩ d.max_variants
    (kv.1.element.symbol, param.elementary_symmetric_polynomial)

end IsotopicDistribution

/-- Lookup in the per-element polynomial map (`ElementPolynomialMap::get`;
the source unwraps, panicking on a missing symbol — the embedding defaults to
the empty vector). -/
def epMapGet (m : List (String × List ℚ)) (symbol : String) : List ℚ :=
  ((m.find? fun pr => pr.1 == symbol).map Prod.snd).getD []

namespace IsotopicDistribution

/-- Embedding of `IsotopicDistribution::center_mass_vector`: for each order,
the count-, sign-, base-intensity- and monoisotopic-mass-weighted sum of the
per-element polynomial terms, divided by the corresponding probability (or
`0` for a zero probability). -/
def center_mass_vector (d : IsotopicDistribution) (probability_vector : List ℚ) :
    List ℚ :=
  let ep_map := d.build_polynomial_map
  (List.range (d.order + 1).toNat).map fun i =>
    let sign : ℚ := if i % 2 == 0 then 1 else -1
    let center := d.composition.composition.foldl
      (fun center kv =>
        let ele_sym_poly := epMapGet ep_map kv.1.element.symbol
        let mono_mass := kv.1.element.most_abundant_mass
        let polynomial_term := ele_sym_poly.getD i 0
        center + (kv.2 : ℚ) * (sign * polynomial_term) *
          d.monoisotopic_peak.intensity * mono_mass)
      0
    if probability_vector.getD i 0 = 0 then 0
    else center / probability_vector.getD i 0

end IsotopicDistribution

/-- Embedding of the peak-collection loop in
`IsotopicDistribution::isotopic_variants`: convert to m/z for a nonzero
charge, divide by the total, keep leading sub-`1e-10` peaks but stop at the
first sub-`1e-10` peak after real signal has been seen. -/
def collectPeaks (charge : Int) (charge_carrier : ℚ) (total : ℚ) :
    List (ℚ × ℚ) → Bool → List Peak
  | [], _ => []
  | (center_mass_i, intensity_i) :: rest, has_real_peaks =>
    let adjusted_mz := if charge ≠ 0
      then mass_charge_ratio center_mass_i charge charge_carrier
      else center_mass_i
    let peak : Peak := ⟨adjusted_mz, intensity_i / total⟩
    if peak.intensity < 1/10^10 then
      if !has_real_peaks then
        peak :: collectPeaks charge charge_carrier total rest has_real_peaks
      else []
    else peak :: collectPeaks charge charge_carrier total rest true

/-- Relation used for the final sort: ascending m/z. -/
def peakLe (a b : Peak) : Prop := a.mz ≤ b.mz

instance : DecidableRel peakLe := fun a b => inferInstanceAs (Decidable (a.mz ≤ b.mz))

instance : IsTotal Peak peakLe := ⟨fun a b => le_total a.mz b.mz⟩

instance : IsTrans Peak peakLe := ⟨fun _ _ _ h1 h2 => le_trans h1 h2⟩

/-- Final sort of the peak list (`peak_list.sort_by(partial_cmp on mz)`; the
source's stable sort is modelled by a stable insertion sort over the same
total ascending-m/z order). -/
def sortPeaksByMz (l : List Peak) : List Peak :=
  List.insertionSort peakLe l

namespace IsotopicDistribution

/-- Embedding of the method `IsotopicDistribution::isotopic_variants`. -/
def isotopic_variants_method (d : IsotopicDistribution) (charge : Int)
    (charge_carrier : ℚ) : List Peak :=
  let probability_vector := d.probability_vector
  let center_mass_vector := d.center_mass_vector probability_vector
  let total := probability_vector.sum
  let pairs := (center_mass_vector.zip probability_vector).take (d.order.toNat + 1)
  sortPeaksByMz (collectPeaks charge charge_carrier total pairs false)

end IsotopicDistribution

/-- Embedding of the free function `isotopic_variants` (the BRAIN entry
point): resolve the peak count, rebuild the distribution (the resolved `i32`
count converts back through `NumPeaksSpec`, so a resolved count of `0` turns
into a fresh guess), and emit the sorted peak list. -/
def isotopic_variants (composition : ChemicalCompositionMap)
    (npeaks : NumPeaksSpec) (charge : Int) (charge_carrier : ℚ) : List Peak :=
  let npeaks := npeaks.num_peaks composition
  let dist := IsotopicDistribution.from_composition composition
    (NumPeaksSpec.fromI32 npeaks)
  dist.isotopic_variants_method charge charge_carrier

/-- Sum of most-abundant masses weighted by counts — the value the BRAIN
engine computes for the order-0 (monoisotopic) center mass. -/
def mSumOf (c : ChemicalCompositionMap) : ℚ :=
  c.composition.foldl
    (fun t kv => t + kv.1.element.most_abundant_mass * (kv.2 : ℚ)) 0

/-! ## C1: mass-cache invalidation across mutating operations -/

/-- C1 (code bug): the spec requires that every count-mutating operation
invalidate or recompute the cached mass, in particular that scaling a
composition after `fmass()` populated the cache must not make `mass()` return
the old mass.  The source's `_mul_by` (both in `composition_map.rs` and
`composition_list.rs`) scales the counts through `iter_mut` without touching
`mass_cache`, so after `fmass()` and `*= 2` the composition `{X: 2}` still
reports the stale mass `10` although the weighted sum of its entries is `20`
— for both storage strategies. -/
theorem c1_mul_by_serves_stale_mass :
    (((ChemicalCompositionVec.new.set specX 1).fmass.2._mul_by 2).mass = 10 ∧
      ((ChemicalCompositionVec.new.set specX 1).fmass.2._mul_by 2).calc_mass = 20) ∧
    (((ChemicalCompositionMap.new.set specX 1).fmass.2._mul_by 2).mass = 10 ∧
      ((ChemicalCompositionMap.new.set specX 1).fmass.2._mul_by 2).calc_mass = 20) := by
  constructor <;> constructor <;>
    norm_num [ChemicalCompositionVec.new, ChemicalCompositionVec.set,
      ChemicalCompositionVec.setEntries, ChemicalCompositionVec.fmass, ChemicalCompositionVec.mass,
      ChemicalCompositionVec.calc_mass, ChemicalCompositionVec._mul_by,
      ChemicalCompositionMap.new, ChemicalCompositionMap.set, ChemicalCompositionMap.mapInsert,
      ChemicalCompositionMap.fmass, ChemicalCompositionMap.mass,
      ChemicalCompositionMap.calc_mass, ChemicalCompositionMap._mul_by,
      entryMass, specX, eltX]

/-! ## C4: composition equality and zero-count entries -/


/-- C4 (counterexample): the claim asserts that a composition with an explicit
zero-count entry equals the same composition with that entry removed.  Under
both storage strategies' `PartialEq` (raw container comparison) the empty
composition and the composition `{X: 0}` are unequal. -/
theorem c4_zero_count_entry_breaks_equality :
    ChemicalCompositionVec.vecEqRust (ChemicalCompositionVec.new.set specX 0)
        ChemicalCompositionVec.new = false ∧
      ChemicalCompositionMap.mapEqRust (ChemicalCompositionMap.new.set specX 0)
        ChemicalCompositionMap.new = false := by
  constructor <;>
    norm_num [ChemicalCompositionVec.vecEqRust, ChemicalCompositionVec.new,
      ChemicalCompositionVec.set, ChemicalCompositionVec.setEntries,
      ChemicalCompositionMap.mapEqRust, ChemicalCompositionMap.new,
      ChemicalCompositionMap.set, ChemicalCompositionMap.mapInsert]

/-- Helper: setting an absent key appends one entry. -/
theorem setEntries_of_absent (spec : ElementSpecification) (count : Int) :
    ∀ m : List (ElementSpecification × Int),
      (m.find? fun kv => specEqRust kv.1 spec) = none →
      ChemicalCompositionVec.setEntries spec count m = m ++ [(spec, count)] := by
  intro m
  induction m with
  | nil => intro _; rfl
  | cons kv rest ih =>
    intro h
    rw [List.find?_cons] at h
    unfold ChemicalCompositionVec.setEntries
    cases hk : specEqRust kv.1 spec with
    | true => rw [hk] at h; exact absurd h (by simp)
    | false =>
      rw [hk] at h
      simp only [cond_false] at h
      simp [ih h]

/-- C4 (amended): composition equality is not invariant under zero-count
entries.  For every composition and every element specification absent from
it, setting that specification's count to `0` produces a composition that is
unequal to the original under the source's `PartialEq` — for both the
map-backed and the list-backed storage strategy.  Equality is exact equality
of the stored entry containers, zero-count entries included. -/
theorem c4_amended_zero_count_entry_distinguished
    (m : ChemicalCompositionMap) (v : ChemicalCompositionVec)
    (e f : ElementSpecification)
    (hm : ChemicalCompositionMap.mapGet m.composition e = none)
    (hv : (v.composition.find? fun kv => specEqRust kv.1 f) = none) :
    ChemicalCompositionMap.mapEqRust (m.set e 0) m = false ∧
      ChemicalCompositionVec.vecEqRust (v.set f 0) v = false := by
  have hm' : (m.composition.find? fun kv => specEqRust kv.1 e) = none := by
    unfold ChemicalCompositionMap.mapGet at hm
    exact Option.map_eq_none.mp hm
  constructor
  · unfold ChemicalCompositionMap.mapEqRust ChemicalCompositionMap.set
      ChemicalCompositionMap.mapInsert
    rw [setEntries_of_absent _ _ _ hm']
    simp
  · unfold ChemicalCompositionVec.vecEqRust ChemicalCompositionVec.set
    rw [setEntries_of_absent _ _ _ hv]
    simp

/-- C4 (witness): the amended statement applied to the empty compositions and
the specification of the toy element. -/
theorem c4_amended_witness :
    ChemicalCompositionMap.mapGet ChemicalCompositionMap.new.composition specX = none ∧
      (ChemicalCompositionVec.new.composition.find? fun kv => specEqRust kv.1 specX) = none ∧
      (ChemicalCompositionMap.mapEqRust (ChemicalCompositionMap.new.set specX 0)
          ChemicalCompositionMap.new = false ∧
        ChemicalCompositionVec.vecEqRust (ChemicalCompositionVec.new.set specX 0)
          ChemicalCompositionVec.new = false) :=
  ⟨rfl, rfl, c4_amended_zero_count_entry_distinguished
    ChemicalCompositionMap.new ChemicalCompositionVec.new specX specX rfl rfl⟩

/-! ## C10: `truncate_after` when the threshold is never reached -/

/-- C10 (counterexample): the claim states the surviving first peak is
renormalized to intensity `1.0`.  When the first peak has intensity `0` (and
the cumulative sum stays below the threshold), the source divides `0.0` by a
zero total — producing `NaN`, not `1.0`; in the rational model the resulting
intensity is `0`.  Either way the result is not `1`. -/
theorem c10_zero_first_peak_not_renormalized_to_one :
    (TheoreticalIsotopicPattern.truncate_after ⟨[⟨100, 0⟩, ⟨101, 1/10⟩], 100⟩
        (1/2)).peaks.map Peak.intensity = [0] ∧ (0 : ℚ) ≠ 1 := by
  constructor
  · norm_num [TheoreticalIsotopicPattern.truncate_after,
      TheoreticalIsotopicPattern.truncateScan, TheoreticalIsotopicPattern.normalize,
      TheoreticalIsotopicPattern.scale_by, TheoreticalIsotopicPattern.total]
  · norm_num

/-- Helper: when every running total stays strictly below the threshold the
scan loop never breaks. -/
theorem truncateScan_no_break (θ : ℚ) :
    ∀ (l : List Peak) (acc : ℚ) (i : Nat),
      (∀ n < l.length, acc + ((l.take (n + 1)).map Peak.intensity).sum < θ) →
      (TheoreticalIsotopicPattern.truncateScan θ l acc i).1 = none := by
  intro l
  induction l with
  | nil => intro acc i _; rfl
  | cons p rest ih =>
    intro acc i h
    have h0 : acc + p.intensity < θ := by
      have := h 0 (by simp)
      simpa using this
    unfold TheoreticalIsotopicPattern.truncateScan
    rw [if_neg (by linarith)]
    apply ih
    intro n hn
    have := h (n + 1) (by simpa using Nat.succ_lt_succ hn)
    simpa [add_assoc] using this

/-- C10 (amended): for every non-empty pattern whose cumulative intensity
stays strictly below the threshold through the whole list, `truncate_after`
keeps exactly the first peak (its m/z unchanged), and — provided the first
peak's intensity is nonzero — that surviving peak is renormalized to
intensity `1`. -/
theorem c10_amended_truncate_after_below_threshold
    (t : TheoreticalIsotopicPattern) (θ : ℚ) (p : Peak) (rest : List Peak)
    (hp : t.peaks = p :: rest)
    (hbelow : ∀ n < t.peaks.length, ((t.peaks.take (n + 1)).map Peak.intensity).sum < θ) :
    (t.truncate_after θ).peaks.map Peak.mz = [p.mz] ∧
      (p.intensity ≠ 0 → t.truncate_after θ = ⟨[⟨p.mz, 1⟩], t.origin⟩) := by
  have hscan : (TheoreticalIsotopicPattern.truncateScan θ (p :: rest) 0 0).1 = none := by
    rw [← hp]
    apply truncateScan_no_break
    intro n hn
    simpa using hbelow n hn
  constructor
  · unfold TheoreticalIsotopicPattern.truncate_after
    simp only [hp, hscan, Option.getD_none, List.take_succ_cons, List.take_zero]
    simp [TheoreticalIsotopicPattern.normalize, TheoreticalIsotopicPattern.scale_by,
      TheoreticalIsotopicPattern.total]
  · intro hne
    unfold TheoreticalIsotopicPattern.truncate_after
    simp only [hp, hscan, Option.getD_none, List.take_succ_cons, List.take_zero]
    unfold TheoreticalIsotopicPattern.normalize TheoreticalIsotopicPattern.scale_by
      TheoreticalIsotopicPattern.total
    simp [hne]

/-- C10 (witness): the amended statement at the concrete two-peak pattern
`[(100, 1/4), (101, 1/10)]` with threshold `1/2`. -/
theorem c10_amended_witness :
    ((⟨[⟨100, 1/4⟩, ⟨101, 1/10⟩], 100⟩ : TheoreticalIsotopicPattern).peaks =
        ⟨100, 1/4⟩ :: [⟨101, 1/10⟩]) ∧
      (∀ n < (⟨[⟨100, 1/4⟩, ⟨101, 1/10⟩], 100⟩ : TheoreticalIsotopicPattern).peaks.length,
        (((⟨[⟨100, 1/4⟩, ⟨101, 1/10⟩], 100⟩ : TheoreticalIsotopicPattern).peaks.take
          (n + 1)).map Peak.intensity).sum < 1/2) ∧
      ((TheoreticalIsotopicPattern.truncate_after ⟨[⟨100, 1/4⟩, ⟨101, 1/10⟩], 100⟩
          (1/2)).peaks.map Peak.mz = [100] ∧
        ((1/4 : ℚ) ≠ 0 →
          TheoreticalIsotopicPattern.truncate_after ⟨[⟨100, 1/4⟩, ⟨101, 1/10⟩], 100⟩ (1/2) =
            ⟨[⟨100, 1⟩], 100⟩)) := by
  have hb : ∀ n < (⟨[⟨100, 1/4⟩, ⟨101, 1/10⟩], 100⟩ : TheoreticalIsotopicPattern).peaks.length,
      (((⟨[⟨100, 1/4⟩, ⟨101, 1/10⟩], 100⟩ : TheoreticalIsotopicPattern).peaks.take
        (n + 1)).map Peak.intensity).sum < 1/2 := by
    intro n hn
    simp only [List.length_cons, List.length_nil] at hn
    interval_cases n <;> norm_num
  exact ⟨rfl, hb, c10_amended_truncate_after_below_threshold
    ⟨[⟨100, 1/4⟩, ⟨101, 1/10⟩], 100⟩ (1/2) ⟨100, 1/4⟩ [⟨101, 1/10⟩] rfl hb⟩

/-! ## C3: fused vs. unfused post-processing -/

/-- C3 (counterexample): applied to the pattern `[(100, 1/2), (101, 1/10)]`
(whose cumulative intensity never reaches `0.95`), the chained
`truncate_after(0.95).ignore_below(0.001)` yields `[(100, 1)]` while the fused
call yields `[(100, 5/6)]` — different both structurally and under the
source's tolerance-based pattern equality. -/
theorem c3_fused_unfused_differ :
    (TheoreticalIsotopicPattern.ignore_below
        (TheoreticalIsotopicPattern.truncate_after ⟨[⟨100, 1/2⟩, ⟨101, 1/10⟩], 100⟩
          (95/100)) (1/1000) ≠
      TheoreticalIsotopicPattern.truncate_after_ignore_below_shift_normalize
        ⟨[⟨100, 1/2⟩, ⟨101, 1/10⟩], 100⟩ (95/100) (1/1000) 0) ∧
    TheoreticalIsotopicPattern.tidEqRust
      (TheoreticalIsotopicPattern.ignore_below
        (TheoreticalIsotopicPattern.truncate_after ⟨[⟨100, 1/2⟩, ⟨101, 1/10⟩], 100⟩
          (95/100)) (1/1000))
      (TheoreticalIsotopicPattern.truncate_after_ignore_below_shift_normalize
        ⟨[⟨100, 1/2⟩, ⟨101, 1/10⟩], 100⟩ (95/100) (1/1000) 0) = false := by
  have h1 : TheoreticalIsotopicPattern.ignore_below
      (TheoreticalIsotopicPattern.truncate_after ⟨[⟨100, 1/2⟩, ⟨101, 1/10⟩], 100⟩
        (95/100)) (1/1000) = ⟨[⟨100, 1⟩], 100⟩ := by
    norm_num [TheoreticalIsotopicPattern.ignore_below,
      TheoreticalIsotopicPattern.truncate_after, TheoreticalIsotopicPattern.truncateScan,
      TheoreticalIsotopicPattern.normalize, TheoreticalIsotopicPattern.scale_by,
      TheoreticalIsotopicPattern.total, List.filter]
  have h2 : TheoreticalIsotopicPattern.truncate_after_ignore_below_shift_normalize
      ⟨[⟨100, 1/2⟩, ⟨101, 1/10⟩], 100⟩ (95/100) (1/1000) 0 = ⟨[⟨100, 5/6⟩], 100⟩ := by
    norm_num [TheoreticalIsotopicPattern.truncate_after_ignore_below_shift_normalize,
      TheoreticalIsotopicPattern.truncateScan, TheoreticalIsotopicPattern.fusedKeep]
  rw [h1, h2]
  constructor
  · intro h
    have := congrArg (fun t => t.peaks) h
    simp at this
    norm_num at this
  · norm_num [TheoreticalIsotopicPattern.tidEqRust, peakEqRust]
    rw [abs_of_pos (show (0:ℚ) < 1/6 by norm_num)]
    norm_num

/-- Helper: when the scan loop breaks it reports the accumulated total of the
consumed prefix, which meets the threshold. -/
theorem truncateScan_break (θ : ℚ) :
    ∀ (l : List Peak) (acc : ℚ) (i k : Nat) (T : ℚ),
      TheoreticalIsotopicPattern.truncateScan θ l acc i = (some k, T) →
      i ≤ k ∧ k - i < l.length ∧
        T = acc + ((l.take (k - i + 1)).map Peak.intensity).sum ∧ θ ≤ T := by
  intro l
  induction l with
  | nil => intro acc i k T h; exact absurd h (by simp [TheoreticalIsotopicPattern.truncateScan])
  | cons p rest ih =>
    intro acc i k T h
    unfold TheoreticalIsotopicPattern.truncateScan at h
    by_cases hc : θ ≤ acc + p.intensity
    · rw [if_pos hc] at h
      obtain ⟨hk, hT⟩ : i = k ∧ acc + p.intensity = T := by
        have := Prod.mk.injEq (some i) (acc + p.intensity) (some k) T ▸ h
        simp at this
        exact ⟨this.1, this.2⟩
      subst hk
      refine ⟨le_refl i, by simp, ?_, by rw [← hT]; exact hc⟩
      simp [← hT]
    · rw [if_neg hc] at h
      obtain ⟨h1, h2, h3, h4⟩ := ih (acc + p.intensity) (i + 1) k T h
      refine ⟨by omega, by simp; omega, ?_, h4⟩
      have hki : k - i = (k - (i + 1)) + 1 := by omega
      rw [hki]
      simp only [List.take_succ_cons, List.map_cons, List.sum_cons]
      rw [h3]
      ring

/-- Helper: closed form of the fused filtering loop — it keeps and shifts the
peaks meeting the threshold and subtracts the dropped intensities from the
running total. -/
theorem fusedKeep_spec (ig sh : ℚ) :
    ∀ (l : List Peak) (tot : ℚ),
      TheoreticalIsotopicPattern.fusedKeep ig sh l tot =
        ((l.filter fun p => decide (ig ≤ p.intensity)).map
            fun p => ({ mz := p.mz + sh, intensity := p.intensity } : Peak),
          tot - ((l.filter fun p => !decide (ig ≤ p.intensity)).map Peak.intensity).sum) := by
  intro l
  induction l with
  | nil => intro tot; simp [TheoreticalIsotopicPattern.fusedKeep]
  | cons p rest ih =>
    intro tot
    unfold TheoreticalIsotopicPattern.fusedKeep
    by_cases hc : ig ≤ p.intensity
    · rw [if_pos hc]
      simp only [ih tot, List.filter_cons, decide_eq_true hc, Bool.not_true, List.map_cons]
      simp
    · rw [if_neg hc]
      rw [ih (tot - p.intensity)]
      simp only [List.filter_cons, decide_eq_false hc]
      simp only [Bool.not_false, Bool.false_eq_true, if_false, if_true, ite_true, ite_false,
        List.map_cons, List.sum_cons]
      rw [Prod.mk.injEq]
      exact ⟨rfl, by ring⟩

/-- Helper: intensities of a list split by a predicate sum to the whole. -/
theorem sum_filter_split (P : Peak → Bool) :
    ∀ l : List Peak,
      ((l.filter fun p => P p).map Peak.intensity).sum +
        ((l.filter fun p => !P p).map Peak.intensity).sum =
      (l.map Peak.intensity).sum := by
  intro l
  induction l with
  | nil => simp
  | cons p rest ih =>
    simp only [List.filter_cons]
    cases hp : P p <;> simp_all <;> linarith

/-- C3 (amended): the chained `truncate_after(θ).ignore_below(a)` equals the
fused `truncate_after_ignore_below_shift_normalize(θ, a, 0)` for every pattern
on which the truncation scan actually reaches the threshold (breaking at index
`k` with positive accumulated total `T`) and on which no kept peak
distinguishes the two effective ignore cutoffs — the unfused path drops
normalized intensities below `a` (original intensity below `a·T`) while the
fused path drops original intensities below `a/T`; the two coincide whenever
`T = 1` (for example any normalized pattern whose scan breaks on its last
peak), and more generally under the cutoff-agreement hypothesis below. -/
theorem c3_amended_equiv_when_threshold_reached
    (t : TheoreticalIsotopicPattern) (θ a : ℚ) (k : Nat) (T : ℚ)
    (hscan : TheoreticalIsotopicPattern.truncateScan θ t.peaks 0 0 = (some k, T))
    (hT : 0 < T)
    (hiff : ∀ p ∈ t.peaks.take (k + 1),
      (a ≤ p.intensity * (1 / T) ↔ a / T ≤ p.intensity)) :
    (t.truncate_after θ).ignore_below a =
      t.truncate_after_ignore_below_shift_normalize θ a 0 := by
  obtain ⟨-, hk, hTsum, hθT⟩ :=
    truncateScan_break θ t.peaks 0 0 k T hscan
  rw [Nat.sub_zero] at hk hTsum
  rw [zero_add] at hTsum
  have htot : ((t.peaks.take (k + 1)).map Peak.intensity).sum = T := hTsum.symm
  -- the truncated-and-normalized pattern
  have hLtrunc : t.truncate_after θ =
      ⟨(t.peaks.take (k + 1)).map fun p => ⟨p.mz, p.intensity * (1 / T)⟩, t.origin⟩ := by
    unfold TheoreticalIsotopicPattern.truncate_after
    rw [hscan]
    simp only [Option.getD_some]
    unfold TheoreticalIsotopicPattern.normalize TheoreticalIsotopicPattern.scale_by
      TheoreticalIsotopicPattern.total
    rw [htot]
  -- the two filter predicates agree on the kept prefix
  have hfilter : ((t.peaks.take (k + 1)).filter
        ((fun q : Peak => decide (a ≤ q.intensity)) ∘
          fun p : Peak => (⟨p.mz, p.intensity * (1 / T)⟩ : Peak))) =
      (t.peaks.take (k + 1)).filter fun p => decide (a / T ≤ p.intensity) := by
    apply List.filter_congr
    intro p hp
    simp only [Function.comp_apply, decide_eq_decide]
    exact hiff p hp
  -- the surviving peaks and their original intensity sum
  have hsplit := sum_filter_split (fun p => decide (a / T ≤ p.intensity)) (t.peaks.take (k + 1))
  rw [htot] at hsplit
  -- left-hand side in closed form
  have hL : (t.truncate_after θ).ignore_below a =
      ⟨((t.peaks.take (k + 1)).filter fun p => decide (a / T ≤ p.intensity)).map
          fun p => ⟨p.mz, p.intensity * (1 / T) *
            (1 / ((((t.peaks.take (k + 1)).filter fun p =>
              decide (a / T ≤ p.intensity)).map Peak.intensity).sum * (1 / T)))⟩,
        t.origin⟩ := by
    rw [hLtrunc]
    unfold TheoreticalIsotopicPattern.ignore_below TheoreticalIsotopicPattern.normalize
      TheoreticalIsotopicPattern.scale_by TheoreticalIsotopicPattern.total
    rw [List.filter_map, hfilter]
    simp only [List.map_map, Function.comp_def]
    rw [List.sum_map_mul_right]
  -- right-hand side in closed form
  have hR : t.truncate_after_ignore_below_shift_normalize θ a 0 =
      ⟨((t.peaks.take (k + 1)).filter fun p => decide (a / T ≤ p.intensity)).map
          fun p => ⟨p.mz + 0, p.intensity /
            ((((t.peaks.take (k + 1)).filter fun p =>
              decide (a / T ≤ p.intensity)).map Peak.intensity).sum)⟩,
        t.origin⟩ := by
    unfold TheoreticalIsotopicPattern.truncate_after_ignore_below_shift_normalize
    rw [hscan]
    simp only [Option.getD_some]
    rw [fusedKeep_spec]
    simp only [List.map_map, Function.comp_def]
    have hTS : T - (((t.peaks.take (k + 1)).filter fun p =>
        !decide (a / T ≤ p.intensity)).map Peak.intensity).sum =
        (((t.peaks.take (k + 1)).filter fun p =>
          decide (a / T ≤ p.intensity)).map Peak.intensity).sum := by
      linarith [hsplit]
    rw [hTS]
  rw [hL, hR]
  -- elementwise comparison of the two maps
  have hmz : ∀ p : Peak, p.mz + 0 = p.mz := fun p => add_zero p.mz
  apply congrArg (fun l => TheoreticalIsotopicPattern.mk l t.origin)
  apply List.map_congr_left
  intro p _
  have hTne : T ≠ 0 := ne_of_gt hT
  rcases eq_or_ne ((((t.peaks.take (k + 1)).filter fun p =>
      decide (a / T ≤ p.intensity)).map Peak.intensity).sum) 0 with hS | hS
  · rw [hS]
    simp
  · rw [Peak.mk.injEq]
    constructor
    · exact (hmz p).symm
    · field_simp

/-- C3 (witness): the amended equivalence applied to the concrete pattern
`[(100, 3/4), (101, 1/4)]` with thresholds `θ = 1/2` and `a = 1/1000`, whose
scan breaks at index `0` with total `3/4`. -/
theorem c3_amended_witness :
    (TheoreticalIsotopicPattern.truncateScan (1/2)
        (⟨[⟨100, 3/4⟩, ⟨101, 1/4⟩], 100⟩ : TheoreticalIsotopicPattern).peaks 0 0 =
      (some 0, 3/4)) ∧ ((0 : ℚ) < 3/4) ∧
    (∀ p ∈ (⟨[⟨100, 3/4⟩, ⟨101, 1/4⟩], 100⟩ :
        TheoreticalIsotopicPattern).peaks.take (0 + 1),
      ((1/1000 : ℚ) ≤ p.intensity * (1 / (3/4)) ↔ (1/1000 : ℚ) / (3/4) ≤ p.intensity)) ∧
    ((TheoreticalIsotopicPattern.truncate_after ⟨[⟨100, 3/4⟩, ⟨101, 1/4⟩], 100⟩
        (1/2)).ignore_below (1/1000) =
      TheoreticalIsotopicPattern.truncate_after_ignore_below_shift_normalize
        ⟨[⟨100, 3/4⟩, ⟨101, 1/4⟩], 100⟩ (1/2) (1/1000) 0) := by
  have hscan : TheoreticalIsotopicPattern.truncateScan (1/2)
      (⟨[⟨100, 3/4⟩, ⟨101, 1/4⟩], 100⟩ : TheoreticalIsotopicPattern).peaks 0 0 =
      (some 0, 3/4) := by
    norm_num [TheoreticalIsotopicPattern.truncateScan]
  have hiff : ∀ p ∈ (⟨[⟨100, 3/4⟩, ⟨101, 1/4⟩], 100⟩ :
      TheoreticalIsotopicPattern).peaks.take (0 + 1),
      ((1/1000 : ℚ) ≤ p.intensity * (1 / (3/4)) ↔ (1/1000 : ℚ) / (3/4) ≤ p.intensity) := by
    intro p hp
    simp only [List.take_succ_cons, List.take_zero, List.mem_singleton] at hp
    subst hp
    norm_num
  exact ⟨hscan, by norm_num, hiff,
    c3_amended_equiv_when_threshold_reached ⟨[⟨100, 3/4⟩, ⟨101, 1/4⟩], 100⟩
      (1/2) (1/1000) 0 (3/4) hscan (by norm_num) hiff⟩

/-! ## C5 and C6: the incremental truncation iterator -/

/-- Helper: members of `downRange i` are exactly the indices `1..i`. -/
theorem mem_downRange {j : Nat} : ∀ i, j ∈ downRange i → 1 ≤ j ∧ j ≤ i := by
  intro i
  induction i with
  | zero => intro h; exact absurd h (by simp [downRange])
  | succ i ih =>
    intro h
    rw [downRange, List.mem_cons] at h
    rcases h with h | h
    · omega
    · have := ih h
      omega

/-- Helper: the unrolled iterator is a take-while over the descending indices,
yielding the renormalized prefix `0..j+1` for every visited index `j` while
the cumulative intensity at `j` exceeds the threshold. -/
theorem incrGo_eq_takeWhile (tpl : TheoreticalIsotopicPattern) (θ : ℚ)
    (cum : List ℚ) :
    ∀ i, TheoreticalIsotopicPattern.incrGo tpl θ cum i =
      ((downRange i).takeWhile fun j => decide (θ < cum.getD j 0)).map
        fun j => tpl.slice_normalized (j + 1) := by
  intro i
  induction i with
  | zero => rfl
  | succ i ih =>
    rw [TheoreticalIsotopicPattern.incrGo, downRange, List.takeWhile_cons]
    by_cases hc : θ < cum.getD (i + 1) 0
    · rw [if_pos hc, decide_eq_true hc]
      simp only [if_true, ite_true, List.map_cons, ih]
    · rw [if_neg hc, decide_eq_false hc]
      simp

/-- Helper: the fold in `IncrementalTruncationIter::new` extends its state by
the running sums. -/
theorem cumulativeOf_foldl (l : List Peak) :
    ∀ state : List ℚ, state ≠ [] →
      List.foldl
        (fun state p =>
          if state.isEmpty then state ++ [p.intensity]
          else state ++ [state.getLastD 0 + p.intensity])
        state l = state ++ cumFrom (state.getLastD 0) l := by
  induction l with
  | nil => intro state _; simp [cumFrom]
  | cons p rest ih =>
    intro state hne
    rw [List.foldl_cons]
    rw [if_neg (by simpa using hne)]
    rw [ih (state ++ [state.getLastD 0 + p.intensity]) (by simp)]
    rw [cumFrom]
    simp [List.getLastD_concat]

/-- Helper: the iterator's cumulative vector is the running prefix sums. -/
theorem cumulativeOf_eq_cumFrom (peaks : List Peak) :
    TheoreticalIsotopicPattern.cumulativeOf peaks = cumFrom 0 peaks := by
  cases peaks with
  | nil => rfl
  | cons p rest =>
    unfold TheoreticalIsotopicPattern.cumulativeOf
    rw [List.foldl_cons]
    simp only [List.isEmpty_nil, if_pos, List.nil_append]
    rw [cumulativeOf_foldl rest [p.intensity] (by simp)]
    rw [cumFrom]
    simp [zero_add]

/-- Helper: length of the cumulative vector. -/
theorem cumFrom_length : ∀ (l : List Peak) (acc : ℚ), (cumFrom acc l).length = l.length := by
  intro l
  induction l with
  | nil => intro acc; rfl
  | cons p rest ih => intro acc; rw [cumFrom]; simp [ih]

/-- Helper: entries of the cumulative vector are the prefix-sums offset by the
accumulator. -/
theorem cumFrom_getD : ∀ (l : List Peak) (acc : ℚ) (i : Nat), i < l.length →
    (cumFrom acc l).getD i 0 = acc + ((l.take (i + 1)).map Peak.intensity).sum := by
  intro l
  induction l with
  | nil => intro acc i h; exact absurd h (by simp)
  | cons p rest ih =>
    intro acc i h
    rw [cumFrom]
    cases i with
    | zero => simp
    | succ i =>
      simp only [List.getD_cons_succ, List.take_succ_cons, List.map_cons, List.sum_cons]
      rw [ih (acc + p.intensity) i (by simpa using h)]
      ring

/-- Helper: scaling preserves the number of peaks. -/
theorem length_scale_by (t : TheoreticalIsotopicPattern) (c : ℚ) :
    (t.scale_by c).peaks.length = t.peaks.length := by
  simp [TheoreticalIsotopicPattern.scale_by]

/-- Helper: normalization preserves the number of peaks. -/
theorem length_normalize (t : TheoreticalIsotopicPattern) :
    t.normalize.peaks.length = t.peaks.length := by
  simp [TheoreticalIsotopicPattern.normalize, length_scale_by]

/-- Helper: length of a renormalized slice. -/
theorem length_slice_normalized (t : TheoreticalIsotopicPattern) (k : Nat) :
    (t.slice_normalized k).peaks.length = min k t.peaks.length := by
  simp [TheoreticalIsotopicPattern.slice_normalized, TheoreticalIsotopicPattern.normalize,
    length_scale_by]

/-- Helper: the total of a scaled pattern. -/
theorem total_scale_by (t : TheoreticalIsotopicPattern) (c : ℚ) :
    (t.scale_by c).total = t.total * c := by
  unfold TheoreticalIsotopicPattern.scale_by TheoreticalIsotopicPattern.total
  simp only [List.map_map, Function.comp_def]
  exact List.sum_map_mul_right t.peaks Peak.intensity c

/-- Helper: a pattern with nonzero total normalizes to total `1`. -/
theorem total_normalize (t : TheoreticalIsotopicPattern) (h : t.total ≠ 0) :
    t.normalize.total = 1 := by
  unfold TheoreticalIsotopicPattern.normalize
  rw [total_scale_by]
  field_simp

/-- Helper: normalizing a pattern whose total is already `1` is the identity. -/
theorem normalize_of_total_one (t : TheoreticalIsotopicPattern) (h : t.total = 1) :
    t.normalize = t := by
  unfold TheoreticalIsotopicPattern.normalize TheoreticalIsotopicPattern.scale_by
  rw [h]
  simp

/-- Helper: a yielded head of the iterator at index `i` is the renormalized
prefix of length `i + 1`. -/
theorem incrGo_head (tpl : TheoreticalIsotopicPattern) (θ : ℚ) (cum : List ℚ) :
    ∀ i x, (TheoreticalIsotopicPattern.incrGo tpl θ cum i).head? = some x →
      x = tpl.slice_normalized (i + 1) := by
  intro i x h
  cases i with
  | zero => exact absurd h (by simp [TheoreticalIsotopicPattern.incrGo])
  | succ i =>
    rw [TheoreticalIsotopicPattern.incrGo] at h
    by_cases hc : θ < cum.getD (i + 1) 0
    · rw [if_pos hc] at h
      simp only [List.head?_cons, Option.some.injEq] at h
      exact h.symm
    · rw [if_neg hc] at h
      exact absurd h (by simp)

/-- Helper: the iterator's yields have strictly decreasing peak counts, as
long as the starting index is below the pattern length. -/
theorem incrGo_chain_lengths (tpl : TheoreticalIsotopicPattern) (θ : ℚ) (cum : List ℚ) :
    ∀ i, i < tpl.peaks.length →
      List.Chain' (fun a b : TheoreticalIsotopicPattern =>
        b.peaks.length < a.peaks.length)
        (TheoreticalIsotopicPattern.incrGo tpl θ cum i) := by
  intro i
  induction i with
  | zero => intro _; simp [TheoreticalIsotopicPattern.incrGo]
  | succ i ih =>
    intro hi
    rw [TheoreticalIsotopicPattern.incrGo]
    by_cases hc : θ < cum.getD (i + 1) 0
    · rw [if_pos hc]
      rw [List.chain'_cons']
      refine ⟨?_, ih (by omega)⟩
      intro y hy
      rw [incrGo_head tpl θ cum i y hy]
      rw [length_slice_normalized, length_slice_normalized]
      omega
    · rw [if_neg hc]
      simp

/-- C5 (counterexample): the claim asserts that for every pattern the yielded
sequence contains the original normalized pattern.  A single-peak pattern
yields nothing at all (the iterator requires `index > 0`), so the normalized
original is not among the yields. -/
theorem c5_single_peak_yields_nothing :
    TheoreticalIsotopicPattern.incremental_truncation ⟨[⟨100, 1/2⟩], 100⟩ (95/100) = [] ∧
      (⟨[⟨100, 1/2⟩], 100⟩ : TheoreticalIsotopicPattern).normalize ∉
        TheoreticalIsotopicPattern.incremental_truncation ⟨[⟨100, 1/2⟩], 100⟩ (95/100) := by
  have h : TheoreticalIsotopicPattern.incremental_truncation ⟨[⟨100, 1/2⟩], 100⟩ (95/100) = [] := by
    norm_num [TheoreticalIsotopicPattern.incremental_truncation,
      TheoreticalIsotopicPattern.incrGo, TheoreticalIsotopicPattern.cumulativeOf,
      TheoreticalIsotopicPattern.normalize, TheoreticalIsotopicPattern.scale_by,
      TheoreticalIsotopicPattern.total]
  exact ⟨h, by rw [h]; simp⟩

/-- C5 (amended): for every pattern with at least two peaks, nonzero total
intensity, and threshold below `1`, the first element yielded by
`incremental_truncation` is the normalized original pattern, and the yielded
sequence has strictly decreasing peak counts. -/
theorem c5_amended_first_yield_is_normalized_original
    (t : TheoreticalIsotopicPattern) (θ : ℚ)
    (h2 : 2 ≤ t.peaks.length) (htot : t.total ≠ 0) (hθ : θ < 1) :
    (t.incremental_truncation θ).head? = some t.normalize ∧
      List.Chain' (fun a b : TheoreticalIsotopicPattern =>
        b.peaks.length < a.peaks.length) (t.incremental_truncation θ) := by
  have hlen : t.normalize.peaks.length = t.peaks.length := length_normalize t
  have htotal1 : t.normalize.total = 1 := total_normalize t htot
  have hcum : (TheoreticalIsotopicPattern.cumulativeOf t.normalize.peaks).getD
      (t.peaks.length - 1) 0 = 1 := by
    rw [cumulativeOf_eq_cumFrom]
    rw [cumFrom_getD t.normalize.peaks 0 (t.peaks.length - 1) (by omega)]
    have : t.peaks.length - 1 + 1 = t.normalize.peaks.length := by omega
    rw [this, List.take_length]
    rw [zero_add]
    exact htotal1
  constructor
  · unfold TheoreticalIsotopicPattern.incremental_truncation
    simp only [hlen]
    obtain ⟨m, hm⟩ : ∃ m, t.peaks.length - 1 = m + 1 := ⟨t.peaks.length - 2, by omega⟩
    rw [hm]
    rw [TheoreticalIsotopicPattern.incrGo]
    rw [if_pos (by rw [← hm, hcum]; exact hθ)]
    simp only [List.head?_cons, Option.some.injEq]
    unfold TheoreticalIsotopicPattern.slice_normalized
    have htake : t.normalize.peaks.take (m + 2) = t.normalize.peaks := by
      apply List.take_of_length_le
      omega
    rw [htake]
    exact normalize_of_total_one t.normalize htotal1
  · unfold TheoreticalIsotopicPattern.incremental_truncation
    simp only [hlen]
    exact incrGo_chain_lengths t.normalize θ _ (t.peaks.length - 1) (by omega)

/-- C5 (witness): the amended statement at the concrete normalized two-peak
pattern `[(100, 3/4), (101, 1/4)]` with threshold `1/2`. -/
theorem c5_amended_witness :
    (2 ≤ (⟨[⟨100, 3/4⟩, ⟨101, 1/4⟩], 100⟩ :
        TheoreticalIsotopicPattern).peaks.length) ∧
      ((⟨[⟨100, 3/4⟩, ⟨101, 1/4⟩], 100⟩ : TheoreticalIsotopicPattern).total ≠ 0) ∧
      ((1/2 : ℚ) < 1) ∧
      (((⟨[⟨100, 3/4⟩, ⟨101, 1/4⟩], 100⟩ :
          TheoreticalIsotopicPattern).incremental_truncation (1/2)).head? =
        some (⟨[⟨100, 3/4⟩, ⟨101, 1/4⟩], 100⟩ :
          TheoreticalIsotopicPattern).normalize ∧
        List.Chain' (fun a b : TheoreticalIsotopicPattern =>
          b.peaks.length < a.peaks.length)
          ((⟨[⟨100, 3/4⟩, ⟨101, 1/4⟩], 100⟩ :
            TheoreticalIsotopicPattern).incremental_truncation (1/2))) := by
  refine ⟨by norm_num, ?_, by norm_num, ?_⟩
  · norm_num [TheoreticalIsotopicPattern.total]
  · exact c5_amended_first_yield_is_normalized_original
      ⟨[⟨100, 3/4⟩, ⟨101, 1/4⟩], 100⟩ (1/2) (by norm_num)
      (by norm_num [TheoreticalIsotopicPattern.total]) (by norm_num)

/-- C6 (counterexample): the claim asserts that the iterator runs down to a
single peak for every multi-peak pattern.  For the two-peak pattern
`[(100, 3/4), (101, 1/4)]` with threshold `0` the sequence consists of the
full two-peak pattern only — it contains no one-peak element (the iterator
never yields below `index > 0`, i.e. below two peaks). -/
theorem c6_never_yields_single_peak_concrete :
    TheoreticalIsotopicPattern.incremental_truncation ⟨[⟨100, 3/4⟩, ⟨101, 1/4⟩], 100⟩ 0 =
        [⟨[⟨100, 3/4⟩, ⟨101, 1/4⟩], 100⟩] ∧
      ((TheoreticalIsotopicPattern.incremental_truncation
          ⟨[⟨100, 3/4⟩, ⟨101, 1/4⟩], 100⟩ 0).all
        fun x => x.peaks.length != 1) = true := by
  have h : TheoreticalIsotopicPattern.incremental_truncation
      ⟨[⟨100, 3/4⟩, ⟨101, 1/4⟩], 100⟩ 0 = [⟨[⟨100, 3/4⟩, ⟨101, 1/4⟩], 100⟩] := by
    norm_num [TheoreticalIsotopicPattern.incremental_truncation,
      TheoreticalIsotopicPattern.incrGo, TheoreticalIsotopicPattern.cumulativeOf,
      TheoreticalIsotopicPattern.normalize, TheoreticalIsotopicPattern.scale_by,
      TheoreticalIsotopicPattern.total, TheoreticalIsotopicPattern.slice_normalized]
  exact ⟨h, by rw [h]; rfl⟩

/-- C6 (amended): `incremental_truncation` yields, lazily and finitely, one
renormalized prefix per index `j` counting down from `len - 1` while the
cumulative (normalized) intensity at `j` still exceeds the threshold — i.e.
progressively shorter renormalized copies from the full pattern down to the
smallest prefix of at least two peaks whose cumulative intensity exceeds the
threshold; it never yields a one-peak element. -/
theorem c6_amended_takewhile_form (t : TheoreticalIsotopicPattern) (θ : ℚ) :
    t.incremental_truncation θ =
        ((downRange (t.normalize.peaks.length - 1)).takeWhile fun j =>
          decide (θ < (TheoreticalIsotopicPattern.cumulativeOf
            t.normalize.peaks).getD j 0)).map
          (fun j => t.normalize.slice_normalized (j + 1)) ∧
      ((t.incremental_truncation θ).all fun x => decide (2 ≤ x.peaks.length)) = true := by
  have hform := incrGo_eq_takeWhile t.normalize θ
    (TheoreticalIsotopicPattern.cumulativeOf t.normalize.peaks)
    (t.normalize.peaks.length - 1)
  have hmain : t.incremental_truncation θ =
      ((downRange (t.normalize.peaks.length - 1)).takeWhile fun j =>
        decide (θ < (TheoreticalIsotopicPattern.cumulativeOf
          t.normalize.peaks).getD j 0)).map
        (fun j => t.normalize.slice_normalized (j + 1)) := by
    unfold TheoreticalIsotopicPattern.incremental_truncation
    exact hform
  refine ⟨hmain, ?_⟩
  rw [hmain, List.all_eq_true]
  intro x hx
  rw [List.mem_map] at hx
  obtain ⟨j, hj, hxj⟩ := hx
  have hjmem : j ∈ downRange (t.normalize.peaks.length - 1) :=
    (List.takeWhile_prefix _).sublist.mem hj
  obtain ⟨hj1, hj2⟩ := mem_downRange _ hjmem
  rw [← hxj]
  rw [decide_eq_true_eq, length_slice_normalized]
  omega

/-- Helper: the running total extends by one term. -/
theorem poissonAcc_succ (lambda : ℚ) (i : Nat) :
    poissonAcc lambda (i + 1) = poissonAcc lambda i + poissonTerm lambda (i + 1) := by
  unfold poissonAcc
  rw [List.range'_concat]
  have h1 : 1 + 1 * i = i + 1 := by omega
  rw [h1]
  simp [add_assoc]

/-- Helper: the loop returns the first stopping index among the remaining
`fuel` indices, else `max_iter`, when entered with the invariant state. -/
theorem poissonLoop_spec (lambda target : ℚ) (max_iter : Nat) :
    ∀ (fuel i : Nat), 1 ≤ i →
      poissonLoop lambda target max_iter fuel i (lambda ^ (i - 1))
        ((Nat.factorial (i - 1) : ℚ)) (poissonAcc lambda (i - 1)) =
      ((List.range' i fuel).find? fun j =>
        poissonStop lambda target j).getD max_iter := by
  intro fuel
  induction fuel with
  | zero => intro i _; simp [poissonLoop]
  | succ fuel ih =>
    intro i hi
    obtain ⟨m, rfl⟩ : ∃ m, i = m + 1 := ⟨i - 1, by omega⟩
    rw [poissonLoop]
    have hp : lambda ^ (m + 1 - 1) * lambda = lambda ^ (m + 1) := by
      rw [Nat.add_sub_cancel, pow_succ]
    have hf : ((Nat.factorial (m + 1 - 1) : ℚ)) * ((m + 1 : Nat) : ℚ) =
        (Nat.factorial (m + 1) : ℚ) := by
      rw [Nat.add_sub_cancel, Nat.factorial_succ]
      push_cast
      ring
    have hcur : lambda ^ (m + 1 - 1) * lambda /
        ((Nat.factorial (m + 1 - 1) : ℚ) * ((m + 1 : Nat) : ℚ)) =
        poissonTerm lambda (m + 1) := by
      rw [hp, hf, poissonTerm]
    have hacc : poissonAcc lambda (m + 1 - 1) + poissonTerm lambda (m + 1) =
        poissonAcc lambda (m + 1) := by
      rw [Nat.add_sub_cancel, poissonAcc_succ]
    rw [List.range'_succ, List.find?_cons]
    by_cases hinf : ratIsInfinite (poissonTerm lambda (m + 1))
    · rw [if_pos (by rw [hcur]; exact hinf)]
      have : poissonStop lambda target (m + 1) = true := by
        unfold poissonStop
        rw [hinf]
        simp
      rw [this]
      simp
    · rw [if_neg (by rw [hcur]; exact hinf)]
      by_cases hratio : poissonTerm lambda (m + 1) / poissonAcc lambda (m + 1) < target
      · rw [if_pos (by rw [hcur, hacc]; exact hratio)]
        have : poissonStop lambda target (m + 1) = true := by
          unfold poissonStop
          rw [decide_eq_true hratio]
          simp
        rw [this]
        simp
      · rw [if_neg (by rw [hcur, hacc]; exact hratio)]
        have hstop : poissonStop lambda target (m + 1) = false := by
          unfold poissonStop
          rw [Bool.eq_false_iff.mpr hinf, decide_eq_false hratio]
          simp
        rw [hstop]
        rw [hcur, hacc, hp, hf]
        have hrec := ih (m + 2) (by omega)
        have h1 : m + 2 - 1 = m + 1 := by omega
        rw [h1] at hrec
        simpa using hrec

/-- C8: `poisson_approximate_n_peaks_of` returns the first index `i ≥ 1` at
which the newly computed term is non-finite or the term divided by the running
total falls below `1 - threshold`; if no such index occurs before the fixed
iteration bound it returns `255`, and the result always lies between `1` and
`255` (the loop is structurally fuel-bounded, so it always terminates). -/
theorem c8_poisson_n_peaks_first_stop_index (mass threshold : ℚ) :
    poisson_approximate_n_peaks_of mass threshold = poissonFirstStop mass threshold ∧
      1 ≤ poisson_approximate_n_peaks_of mass threshold ∧
      poisson_approximate_n_peaks_of mass threshold ≤ 255 := by
  have hmain : poisson_approximate_n_peaks_of mass threshold =
      poissonFirstStop mass threshold := by
    unfold poisson_approximate_n_peaks_of poisson_approximate_n_peaks_of_impl
      poissonFirstStop
    have h := poissonLoop_spec (mass / 1800) (1 - threshold) 255 254 1 (le_refl 1)
    simp only [Nat.sub_self, pow_zero, Nat.factorial_zero, Nat.cast_one] at h
    have hacc0 : poissonAcc (mass / 1800) 0 = 1 := by
      unfold poissonAcc
      simp
    rw [hacc0] at h
    exact h
  refine ⟨hmain, ?_, ?_⟩ <;> rw [hmain] <;> unfold poissonFirstStop
  · cases hf : (List.range' 1 254).find? fun i =>
        poissonStop (mass / 1800) (1 - threshold) i with
    | none => simp
    | some j =>
      have := List.mem_range'_1.mp (List.mem_of_find?_eq_some hf)
      simp only [Option.getD_some]
      omega
  · cases hf : (List.range' 1 254).find? fun i =>
        poissonStop (mass / 1800) (1 - threshold) i with
    | none => simp
    | some j =>
      have := List.mem_range'_1.mp (List.mem_of_find?_eq_some hf)
      simp only [Option.getD_some]
      omega

/-! ## C9: the cache's monotonic-order replacement policy -/

/-- Helper: looking up the key just inserted yields the inserted constants. -/
theorem cacheLookup_insert_self (symbol : String) (c : PhiConstants) :
    ∀ cache, cacheLookup (cacheInsert symbol c cache) symbol = some c := by
  intro cache
  induction cache with
  | nil => simp [cacheInsert, cacheLookup]
  | cons kv rest ih =>
    rw [cacheInsert]
    by_cases hk : kv.1 == symbol
    · rw [if_pos hk]
      unfold cacheLookup
      rw [List.find?_cons, hk]
      rfl
    · rw [if_neg hk]
      unfold cacheLookup
      rw [List.find?_cons]
      rw [Bool.eq_false_iff.mpr hk]
      exact ih

/-- Helper: insertion under one key leaves other keys' lookups unchanged. -/
theorem cacheLookup_insert_ne (symbol other : String) (c : PhiConstants)
    (hne : (other == symbol) = false) :
    ∀ cache, cacheLookup (cacheInsert symbol c cache) other = cacheLookup cache other := by
  intro cache
  induction cache with
  | nil =>
    simp only [cacheInsert, cacheLookup, List.find?_cons, List.find?_nil]
    have hsym : (symbol == other) = false := by
      have h2 : other ≠ symbol := by simpa using hne
      exact beq_eq_false_iff_ne.mpr fun h => h2 h.symm
    rw [hsym]
  | cons kv rest ih =>
    rw [cacheInsert]
    by_cases hk : kv.1 == symbol
    · rw [if_pos hk]
      unfold cacheLookup
      rw [List.find?_cons, List.find?_cons]
      have : (kv.1 == other) = false := by
        have h1 : kv.1 = symbol := by simpa using hk
        have h2 : ¬ other = symbol := by simpa using hne
        simp [h1]
        intro h
        exact absurd h.symm h2
      rw [this]
    · rw [if_neg hk]
      unfold cacheLookup
      rw [List.find?_cons, List.find?_cons]
      cases hko : kv.1 == other with
      | true => rfl
      | false => exact ih

/-- Helper: one `receive` never lowers the cached order of any symbol. -/
theorem cacheReceive_monotone_step (cache : List (String × PhiConstants))
    (symbol : String) (c : PhiConstants) (sym : String) (c0 : PhiConstants)
    (h : cacheLookup cache sym = some c0) :
    ∃ c1, cacheLookup (cacheReceive cache symbol c).2 sym = some c1 ∧
      c0.order ≤ c1.order := by
  by_cases hs : (sym == symbol) = true
  · have hsym : sym = symbol := by simpa using hs
    subst hsym
    unfold cacheReceive
    rw [h]
    dsimp only
    by_cases hord : c0.order > c.order
    · rw [if_pos hord]
      exact ⟨c0, h, le_refl _⟩
    · rw [if_neg hord]
      refine ⟨c, ?_, by omega⟩
      exact cacheLookup_insert_self sym c cache
  · have hs' : (sym == symbol) = false := by simpa using hs
    unfold cacheReceive
    cases hfind : cacheLookup cache symbol with
    | none =>
      dsimp only
      exact ⟨c0, by rw [cacheLookup_insert_ne symbol sym c hs' cache]; exact h, le_refl _⟩
    | some ent =>
      dsimp only
      by_cases hord : ent.order > c.order
      · rw [if_pos hord]
        exact ⟨c0, h, le_refl _⟩
      · rw [if_neg hord]
        exact ⟨c0, by rw [cacheLookup_insert_ne symbol sym c hs' cache]; exact h, le_refl _⟩

/-- C9: the cache's replacement policy is monotonic in the truncation order.
A `receive(symbol, constants)` stores into a vacant slot, replaces an
occupied slot only when the cached order does not exceed the incoming order,
and rejects (returning `false` and leaving the cache unchanged) otherwise;
consequently, over any sequence of `receive` operations the order cached
under any symbol never decreases. -/
theorem c9_cache_receive_monotonic :
    (∀ cache symbol c, cacheLookup cache symbol = none →
      cacheReceive cache symbol c = (true, cacheInsert symbol c cache)) ∧
    (∀ cache symbol c ent, cacheLookup cache symbol = some ent →
      c.order < ent.order → cacheReceive cache symbol c = (false, cache)) ∧
    (∀ cache symbol c ent, cacheLookup cache symbol = some ent →
      ent.order ≤ c.order → cacheReceive cache symbol c = (true, cacheInsert symbol c cache)) ∧
    (∀ (ops : List (String × PhiConstants)) cache sym c0,
      cacheLookup cache sym = some c0 →
      ∃ c1, cacheLookup (cacheReceiveAll cache ops) sym = some c1 ∧
        c0.order ≤ c1.order) := by
  refine ⟨?_, ?_, ?_, ?_⟩
  · intro cache symbol c h
    unfold cacheReceive
    rw [h]
  · intro cache symbol c ent h hord
    unfold cacheReceive
    rw [h]
    dsimp only
    rw [if_pos (by omega)]
  · intro cache symbol c ent h hord
    unfold cacheReceive
    rw [h]
    dsimp only
    rw [if_neg (by omega)]
  · intro ops
    induction ops with
    | nil => intro cache sym c0 h; exact ⟨c0, h, le_refl _⟩
    | cons op rest ih =>
      intro cache sym c0 h
      obtain ⟨c1, h1, hle1⟩ := cacheReceive_monotone_step cache op.1 op.2 sym c0 h
      obtain ⟨c2, h2, hle2⟩ := ih (cacheReceive cache op.1 op.2).2 sym c1 h1
      exact ⟨c2, h2, le_trans hle1 hle2⟩

/-- C9 (witness): the policy at concrete inputs — storing into a vacant
cache, rejecting a lower-order replacement, accepting an equal-order
replacement, and order monotonicity across a receive sequence that attempts
a downgrade. -/
theorem c9_cache_receive_monotonic_witness :
    (cacheReceive [] "X" ⟨2, "X", ⟨[], []⟩, ⟨[], []⟩⟩ =
      (true, [("X", ⟨2, "X", ⟨[], []⟩, ⟨[], []⟩⟩)])) ∧
    (cacheReceive [("X", ⟨2, "X", ⟨[], []⟩, ⟨[], []⟩⟩)] "X" ⟨1, "X", ⟨[], []⟩, ⟨[], []⟩⟩ =
      (false, [("X", ⟨2, "X", ⟨[], []⟩, ⟨[], []⟩⟩)])) ∧
    (∃ c1, cacheLookup
        (cacheReceiveAll [("X", ⟨2, "X", ⟨[], []⟩, ⟨[], []⟩⟩)]
          [("X", ⟨1, "X", ⟨[], []⟩, ⟨[], []⟩⟩)]) "X" = some c1 ∧
      (2 : Int) ≤ c1.order) := by
  refine ⟨?_, ?_, ?_⟩
  · exact c9_cache_receive_monotonic.1 [] "X" ⟨2, "X", ⟨[], []⟩, ⟨[], []⟩⟩ rfl
  · exact c9_cache_receive_monotonic.2.1 [("X", ⟨2, "X", ⟨[], []⟩, ⟨[], []⟩⟩)] "X"
      ⟨1, "X", ⟨[], []⟩, ⟨[], []⟩⟩ ⟨2, "X", ⟨[], []⟩, ⟨[], []⟩⟩ rfl (by norm_num)
  · exact c9_cache_receive_monotonic.2.2.2 [("X", ⟨1, "X", ⟨[], []⟩, ⟨[], []⟩⟩)]
      [("X", ⟨2, "X", ⟨[], []⟩, ⟨[], []⟩⟩)] "X" ⟨2, "X", ⟨[], []⟩, ⟨[], []⟩⟩ rfl

/-- C2 (code bug): the spec requires that an unknown element symbol surface
as a typed, recoverable parse error.  `ElementSpecification::parse_with` does
return the typed `UnknownElement` error, but the formula parser's
`parse_element_from_string` indexes the periodic table (`&periodic_table[elt_sym]`,
i.e. `&self.elements[i]`), which panics on a missing symbol: parsing the
formula `"J"` against a table that only knows `"X"` panics instead of
returning an error.  The third conjunct checks the parser works normally on a
known symbol. -/
theorem c2_unknown_element_symbol_panics :
    parse_formula [("X", eltX)] "J" = .panicked ∧
      elementSpecificationParseWith "J".toList [("X", eltX)] = .err .UnknownElement ∧
      (∃ c, parse_formula [("X", eltX)] "X2" = .ok c ∧ c.get specX = 2) := by
  refine ⟨rfl, rfl, ⟨_, rfl, rfl⟩⟩

/-! ## C7: shape of the BRAIN output -/

/-- Helper: a fold that only adds per-element contributions is the initial
value plus the sum of the contributions. -/
theorem foldl_add_shift {α : Type} (h : α → ℚ) :
    ∀ (l : List α) (init : ℚ),
      l.foldl (fun acc kv => acc + h kv) init = init + (l.map h).sum := by
  intro l
  induction l with
  | nil => intro init; simp
  | cons kv rest ih =>
    intro init
    rw [List.foldl_cons, ih, List.map_cons, List.sum_cons]
    ring

/-- Helper: a fold whose step only appends to its accumulator extends the
initial list. -/
theorem foldl_append_extension {β : Type} (g : List ℚ → β → List ℚ)
    (hg : ∀ esp k, ∃ xs, g esp k = esp ++ xs) :
    ∀ (l : List β) (init : List ℚ), ∃ ys, l.foldl g init = init ++ ys := by
  intro l
  induction l with
  | nil => intro init; exact ⟨[], by simp⟩
  | cons k rest ih =>
    intro init
    obtain ⟨xs, hxs⟩ := hg init k
    obtain ⟨ys, hys⟩ := ih (init ++ xs)
    exact ⟨xs ++ ys, by rw [List.foldl_cons, hxs, hys, List.append_assoc]⟩

/-- Helper: running the Newton recursion on a nonempty power-sum vector with
no coefficients yet always produces an elementary-symmetric-polynomial vector
starting with `1` (the `k = 0` branch of the update loop pushes `1.0`
first). -/
theorem newton_esp_head (x : ℚ) (rest : List ℚ) (ord : Int) :
    ∃ ys, (newton_optimization ⟨[], x :: rest⟩ ord).elementary_symmetric_polynomial =
      1 :: ys := by
  unfold newton_optimization
  simp only [List.length_cons, List.length_nil]
  rw [if_neg (by omega), if_neg (by simp)]
  unfold update_elementary_symmetric_polynomial
  simp only [List.length_nil, List.length_cons, Nat.sub_zero]
  have hrange : List.range' 0 (rest.length + 1) = 0 :: List.range' 1 rest.length := rfl
  rw [hrange, List.foldl_cons]
  simp only [beq_self_eq_true, if_pos, List.nil_append]
  have hg : ∀ (esp : List ℚ) (k : Nat), ∃ xs,
      (if k == 0 then esp ++ [1]
       else if 0 ≤ ord ∧ (k : Int) > ord then esp ++ [0]
       else esp ++ [updateEspStep (x :: rest) esp k]) = esp ++ xs := by
    intro esp k
    by_cases h0 : k == 0
    · exact ⟨[1], by rw [if_pos h0]⟩
    · by_cases h1 : 0 ≤ ord ∧ (k : Int) > ord
      · exact ⟨[0], by rw [if_neg h0, if_pos h1]⟩
      · exact ⟨[updateEspStep (x :: rest) esp k], by rw [if_neg h0, if_neg h1]⟩
  obtain ⟨ys, hys⟩ := foldl_append_extension _ hg (List.range' 1 rest.length) [1]
  exact ⟨ys, by rw [hys]; rfl⟩

/-- Helper: looking up a symbol in a map whose entries all carry vectors
headed by `1` yields a vector headed by `1`, provided the symbol occurs. -/
theorem epMapGet_head_one :
    ∀ (m : List (String × List ℚ)),
      (∀ pr ∈ m, ∃ ys, pr.2 = 1 :: ys) →
      ∀ sym, (∃ pr ∈ m, (pr.1 == sym) = true) →
      (epMapGet m sym).getD 0 0 = 1 := by
  intro m
  induction m with
  | nil => intro _ sym hex; obtain ⟨pr, hpr, _⟩ := hex; exact absurd hpr (by simp)
  | cons pr rest ih =>
    intro hall sym hex
    unfold epMapGet
    rw [List.find?_cons]
    by_cases hp : (pr.1 == sym) = true
    · rw [hp]
      obtain ⟨ys, hys⟩ := hall pr (by simp)
      simp [hys]
    · rw [Bool.eq_false_iff.mpr hp]
      have hex' : ∃ pr' ∈ rest, (pr'.1 == sym) = true := by
        obtain ⟨pr', hpr', heq⟩ := hex
        rcases List.mem_cons.mp hpr' with h | h
        · exact absurd (h ▸ heq) hp
        · exact ⟨pr', h, heq⟩
      have := ih (fun q hq => hall q (List.mem_cons_of_mem pr hq)) sym hex'
      unfold epMapGet at this
      exact this

/-- Helper: every vector of the per-element polynomial map starts with `1`
(each is an elementary symmetric polynomial vector freshly derived from a
power-sum vector headed by the placeholder `0`). -/
theorem build_polynomial_map_heads (d : IsotopicDistribution) :
    ∀ pr ∈ d.build_polynomial_map, ∃ ys, pr.2 = 1 :: ys := by
  intro pr hpr
  unfold IsotopicDistribution.build_polynomial_map at hpr
  obtain ⟨kv, _, hkv⟩ := List.mem_map.mp hpr
  obtain ⟨ys, hys⟩ := newton_esp_head 0
    ((List.range' 1 d.order.toNat).map (d.phi_mass_for kv.1)) d.max_variants
  refine ⟨ys, ?_⟩
  rw [← hkv]
  simpa [IsotopicDistribution.phi_values_mass] using hys

/-- Helper: the order-0 entry of the per-element polynomial map is `1` for
every element of the composition. -/
theorem epMapGet_build_head (d : IsotopicDistribution) :
    ∀ kv ∈ d.composition.composition,
      (epMapGet d.build_polynomial_map kv.1.element.symbol).getD 0 0 = 1 := by
  intro kv hkv
  apply epMapGet_head_one _ (build_polynomial_map_heads d)
  refine ⟨(kv.1.element.symbol,
    (newton_optimization ⟨[], d.phi_values_mass kv.1⟩ d.max_variants).elementary_symmetric_polynomial),
    ?_, by simp⟩
  unfold IsotopicDistribution.build_polynomial_map
  exact List.mem_map.mpr ⟨kv, hkv, rfl⟩

/-- Helper: the probability vector starts with the monoisotopic intensity
(the order-0 elementary symmetric polynomial coefficient is `1` and the sign
at order 0 is positive). -/
theorem probability_vector_head (d : IsotopicDistribution) :
    ∃ ps, d.probability_vector = d.monoisotopic_peak.intensity :: ps := by
  unfold IsotopicDistribution.probability_vector
  obtain ⟨ys, hys⟩ := newton_esp_head 0
    ((List.range' 1 d.order.toNat).map d.phi_for) d.max_variants
  simp only [IsotopicDistribution.phi_values]
  rw [hys, List.mapIdx_cons]
  refine ⟨List.mapIdx (fun i x => x * (d.monoisotopic_peak.intensity *
    if ((i + 1) % 2 == 0) = true then (1 : ℚ) else -1)) ys, ?_⟩
  rw [List.cons.injEq]
  refine ⟨by norm_num, rfl⟩

/-- Helper: with a nonnegative order and nonzero monoisotopic intensity, the
center-mass vector starts with the count-weighted sum of most-abundant
masses: at order 0 the probability is the monoisotopic intensity, each
element's polynomial term is `1`, and the base intensity cancels in the
division. -/
theorem center_mass_vector_head (d : IsotopicDistribution) (ps : List ℚ)
    (hord : 0 ≤ d.order) (hmono : d.monoisotopic_peak.intensity ≠ 0)
    (hpv : d.probability_vector = d.monoisotopic_peak.intensity :: ps) :
    ∃ cs, d.center_mass_vector d.probability_vector = mSumOf d.composition :: cs := by
  unfold IsotopicDistribution.center_mass_vector
  have hn : (d.order + 1).toNat = d.order.toNat + 1 := by omega
  rw [hn, List.range_succ_eq_map, List.map_cons]
  refine ⟨List.map
    (fun i =>
      let sign : ℚ := if (i % 2 == 0) = true then 1 else -1
      let center :=
        List.foldl
          (fun center kv =>
            let ele_sym_poly := epMapGet d.build_polynomial_map kv.1.element.symbol
            let mono_mass := kv.1.element.most_abundant_mass
            let polynomial_term := ele_sym_poly.getD i 0
            center + (kv.2 : ℚ) * (sign * polynomial_term) *
              d.monoisotopic_peak.intensity * mono_mass)
          0 d.composition.composition
      if d.probability_vector.getD i 0 = 0 then 0
      else center / d.probability_vector.getD i 0)
    (List.map Nat.succ (List.range d.order.toNat)), ?_⟩
  rw [List.cons.injEq]
  refine ⟨?_, rfl⟩
  have hsign : (if (0 % 2 == 0) = true then (1 : ℚ) else -1) = 1 := by norm_num
  rw [hsign]
  dsimp only
  have hfold : d.composition.composition.foldl
      (fun center kv =>
        center + (kv.2 : ℚ) *
          ((1 : ℚ) * (epMapGet d.build_polynomial_map kv.1.element.symbol).getD 0 0) *
          d.monoisotopic_peak.intensity * kv.1.element.most_abundant_mass) 0 =
      d.monoisotopic_peak.intensity * mSumOf d.composition := by
    rw [foldl_add_shift]
    rw [zero_add]
    have hmapeq : d.composition.composition.map
        (fun kv => (kv.2 : ℚ) *
          ((1 : ℚ) * (epMapGet d.build_polynomial_map kv.1.element.symbol).getD 0 0) *
          d.monoisotopic_peak.intensity * kv.1.element.most_abundant_mass) =
        d.composition.composition.map
          (fun kv => d.monoisotopic_peak.intensity *
            (kv.1.element.most_abundant_mass * (kv.2 : ℚ))) := by
      apply List.map_congr_left
      intro kv hkv
      rw [epMapGet_build_head d kv hkv]
      ring
    rw [hmapeq, List.sum_map_mul_left]
    unfold mSumOf
    rw [foldl_add_shift]
    ring
  rw [hfold, hpv]
  simp only [List.getD_cons_zero]
  rw [if_neg hmono]
  exact mul_div_cancel_left₀ _ hmono

/-- Helper: the collection loop always emits the first pair (leading
sub-threshold peaks are kept before real signal is seen). -/
theorem collectPeaks_head (charge : Int) (cc total : ℚ) (pr : ℚ × ℚ)
    (rest : List (ℚ × ℚ)) :
    ∃ tl, collectPeaks charge cc total (pr :: rest) false =
      (⟨if charge ≠ 0 then mass_charge_ratio pr.1 charge cc else pr.1,
        pr.2 / total⟩ : Peak) :: tl := by
  unfold collectPeaks
  by_cases hc : pr.2 / total < 1/10^10
  · rw [if_pos hc]
    exact ⟨_, rfl⟩
  · rw [if_neg hc]
    exact ⟨_, rfl⟩

/-- Helper: the final sort always yields an ascending-m/z list with the same
members. -/
theorem sortPeaksByMz_sorted_mem (l : List Peak) :
    List.Sorted peakLe (sortPeaksByMz l) ∧ ∀ p, p ∈ sortPeaksByMz l ↔ p ∈ l := by
  constructor
  · exact List.sorted_insertionSort peakLe l
  · intro p
    exact (List.perm_insertionSort peakLe l).mem_iff

/-- Helper: the BRAIN method's output, for a neutral charge, is always sorted
ascending by m/z, and — whenever the working order is nonnegative and the
monoisotopic intensity nonzero — contains the order-0 peak, whose mass is the
count-weighted sum of the most-abundant isotope masses. -/
theorem brain_variants_sorted_and_mono (d : IsotopicDistribution) (cc : ℚ)
    (hord : 0 ≤ d.order) (hmono : d.monoisotopic_peak.intensity ≠ 0) :
    List.Sorted peakLe (d.isotopic_variants_method 0 cc) ∧
      ∃ p ∈ d.isotopic_variants_method 0 cc, p.mz = mSumOf d.composition := by
  obtain ⟨ps, hpv⟩ := probability_vector_head d
  obtain ⟨cs, hcmv⟩ := center_mass_vector_head d ps hord hmono hpv
  refine ⟨(sortPeaksByMz_sorted_mem _).1, ?_⟩
  unfold IsotopicDistribution.isotopic_variants_method
  dsimp only
  obtain ⟨tl, htl⟩ := collectPeaks_head 0 cc d.probability_vector.sum
    (mSumOf d.composition, d.monoisotopic_peak.intensity)
    ((cs.zip ps).take d.order.toNat)
  have hpairs : ((d.center_mass_vector d.probability_vector).zip
      d.probability_vector).take (d.order.toNat + 1) =
      (mSumOf d.composition, d.monoisotopic_peak.intensity) ::
        (cs.zip ps).take d.order.toNat := by
    rw [hcmv]
    conv_lhs => rw [hpv]
    rw [List.zip_cons_cons, List.take_succ_cons]
  rw [hpairs, htl]
  refine ⟨⟨mSumOf d.composition, d.monoisotopic_peak.intensity /
    d.probability_vector.sum⟩, ?_, rfl⟩
  rw [(sortPeaksByMz_sorted_mem _).2]
  simp

/-- Helper: every peak-count strategy resolves to a nonnegative count. -/
theorem num_peaks_nonneg (spec : NumPeaksSpec) (comp : ChemicalCompositionMap) :
    0 ≤ spec.num_peaks comp := by
  cases spec with
  | Guess =>
    unfold NumPeaksSpec.num_peaks guess_npeaks
    exact le_min (Int.ofNat_nonneg _) (by norm_num)
  | FixedCount i => exact le_max_right _ _
  | PercentSignal v => exact le_max_right _ _

/-- Helper: structural facts about the distribution the entry point builds —
the composition is carried unchanged, the monoisotopic intensity is the
product of most-abundant abundances, and the clamped order is nonnegative
whenever `max_variants` is. -/
theorem from_composition_fields (comp : ChemicalCompositionMap) (spec : NumPeaksSpec)
    (hmv : 0 ≤ compositionMaxVariants comp) :
    (IsotopicDistribution.from_composition comp spec).composition = comp ∧
      (IsotopicDistribution.from_composition comp spec).monoisotopic_peak.intensity =
        comp.composition.foldl
          (fun acc kv => acc *
            (((kv.1.element.isotopesGet kv.1.element.most_abundant_isotope).map
              Isotope.abundance).getD 0)) 1 ∧
      0 ≤ (IsotopicDistribution.from_composition comp spec).order := by
  refine ⟨rfl, rfl, ?_⟩
  have hnp := num_peaks_nonneg spec comp
  show 0 ≤ (IsotopicDistribution.fill_from_composition comp spec).order
  unfold IsotopicDistribution.fill_from_composition IsotopicDistribution.update_order
  dsimp only
  rw [if_neg (by omega)]
  exact le_min (by omega) hmv

/-- Helper: under isotope-free specifications the count-weighted
most-abundant-mass sum is exactly `calc_mass`. -/
theorem mSumOf_eq_calc_mass (comp : ChemicalCompositionMap)
    (hiso : ∀ kv ∈ comp.composition, kv.1.isotope = 0) :
    mSumOf comp = comp.calc_mass := by
  unfold mSumOf ChemicalCompositionMap.calc_mass
  apply List.foldl_ext
  intro b kv hkv
  unfold entryMass
  rw [if_pos (by simpa using hiso kv hkv)]

/-- Helper: Concrete run of the coefficient accumulator on zinc (count-weighted
mode): the slots for shifts 5 and 6 (beyond the highest probed isotope) and for
shift 1 are zero, and Zn-70 is skipped by the key enumeration. -/
theorem zn_acc_e :
    isotopic_coefficients eltZn false [] =
      [0, 0, 190240/1000000, 41020/1000000, 279750/1000000, 0, 482680/1000000] := by
  have h : isotopic_coefficients eltZn false [] =
      [0, 0, 1 * (190240/1000000), 1 * (41020/1000000), 1 * (279750/1000000), 0,
        1 * (482680/1000000)] := rfl
  rw [h]
  norm_num

/-- Helper: Vieta coefficients of the zinc abundance accumulator. -/
theorem zn_esp_e :
    vietes [0, 0, 190240/1000000, 41020/1000000, 279750/1000000, 0, 482680/1000000] =
      [1, 0, 27975/48268, -(2051/24134), 4756/12067, 0, 0] := by
  have h : vietes [0, 0, 190240/1000000, 41020/1000000, 279750/1000000, 0,
      482680/1000000] =
      [1 * (482680/1000000) / (482680/1000000),
       -1 * 0 / (482680/1000000),
       1 * (279750/1000000) / (482680/1000000),
       -1 * (41020/1000000) / (482680/1000000),
       1 * (190240/1000000) / (482680/1000000),
       -1 * 0 / (482680/1000000),
       1 * 0 / (482680/1000000)] := rfl
  rw [h]
  norm_num

/-- Helper: Newton power sums of the zinc abundance coefficients. -/
theorem zn_ps_e :
    update_power_sum ⟨[1, 0, 27975/48268, -(2051/24134), 4756/12067, 0, 0], []⟩ =
      ⟨[1, 0, 27975/48268, -(2051/24134), 4756/12067, 0, 0],
        [0, 0, -(27975/24134), -(6153/24134), -(1053900239/1164899912),
          286883625/1164899912, 56389180323633/56227388952416]⟩ := by
  norm_num [update_power_sum, updatePowerSumStep, List.range']

/-- Helper: Polynomial parameters of zinc, count-weighted mode. -/
theorem zn_pfe_e :
    polynomialParametersFromElement eltZn false =
      ⟨[1, 0, 27975/48268, -(2051/24134), 4756/12067, 0, 0],
        [0, 0, -(27975/24134), -(6153/24134), -(1053900239/1164899912),
          286883625/1164899912, 56389180323633/56227388952416]⟩ := by
  simp only [polynomialParametersFromElement, zn_acc_e, zn_esp_e]
  norm_num [newton_optimization]
  exact zn_ps_e

/-- Helper: Concrete run of the coefficient accumulator on zinc, mass-weighted mode. -/
theorem zn_acc_m :
    isotopic_coefficients eltZn true [] =
      [0, 0, 20190659879/1562500000, 137267537477/50000000000,
        73771230927/4000000000, 0, 385716478257/12500000000] := by
  have h : isotopic_coefficients eltZn true [] =
      [0, 0, 67924844/1000000 * (190240/1000000), 66927127/1000000 * (41020/1000000),
        65926033/1000000 * (279750/1000000), 0,
        63929142/1000000 * (482680/1000000)] := rfl
  rw [h]
  norm_num

/-- Helper: Vieta coefficients of the mass-weighted zinc accumulator. -/
theorem zn_esp_m :
    vietes [0, 0, 20190659879/1562500000, 137267537477/50000000000,
        73771230927/4000000000, 0, 385716478257/12500000000] =
      [1, 0, 614760257725/1028577275352, -(137267537477/1542865913028),
        161525279032/385716478257, 0, 0] := by
  have h : vietes [0, 0, 20190659879/1562500000, 137267537477/50000000000,
      73771230927/4000000000, 0, 385716478257/12500000000] =
      [1 * (385716478257/12500000000) / (385716478257/12500000000),
       -1 * 0 / (385716478257/12500000000),
       1 * (73771230927/4000000000) / (385716478257/12500000000),
       -1 * (137267537477/50000000000) / (385716478257/12500000000),
       1 * (20190659879/1562500000) / (385716478257/12500000000),
       -1 * 0 / (385716478257/12500000000),
       1 * 0 / (385716478257/12500000000)] := rfl
  rw [h]
  norm_num

/-- Helper: Newton power sums of the mass-weighted zinc coefficients. -/
theorem zn_ps_m :
    update_power_sum ⟨[1, 0, 614760257725/1028577275352, -(137267537477/1542865913028),
        161525279032/385716478257, 0, 0], []⟩ =
      ⟨[1, 0, 614760257725/1028577275352, -(137267537477/1542865913028),
        161525279032/385716478257, 0, 0],
        [0, 0, -(614760257725/514288637676), -(137267537477/514288637676),
          -(508156393026990756593783/528985605685272013361952),
          421933133583183081299125/1586956817055816040085856,
          597680318869183789171103515949869547/544102572996184528338815925544207104]⟩ := by
  norm_num [update_power_sum, updatePowerSumStep, List.range']

/-- Helper: Polynomial parameters of zinc, mass-weighted mode. -/
theorem zn_pfe_m :
    polynomialParametersFromElement eltZn true =
      ⟨[1, 0, 614760257725/1028577275352, -(137267537477/1542865913028),
        161525279032/385716478257, 0, 0],
        [0, 0, -(614760257725/514288637676), -(137267537477/514288637676),
          -(508156393026990756593783/528985605685272013361952),
          421933133583183081299125/1586956817055816040085856,
          597680318869183789171103515949869547/544102572996184528338815925544207104]⟩ := by
  simp only [polynomialParametersFromElement, zn_acc_m, zn_esp_m]
  norm_num [newton_optimization]
  exact zn_ps_m

/-- Helper: The distribution state built for `{Zn: 250000}` with a fixed peak count
of `4` after the entry point resolves `FixedCount 5`: working order 4,
monoisotopic peak at the composition mass with the per-entry abundance product. -/
theorem zn_fill :
    IsotopicDistribution.fill_from_composition ⟨[(specZn, 250000)], none⟩
      (NumPeaksSpec.FixedCount 4) =
    ⟨⟨[(specZn, 250000)], none⟩, ⟨[], 4⟩, 4, 0, ⟨31964571/2, 12067/25000⟩, 1500000⟩ := by
  have hmam : eltZn.most_abundant_mass = 63929142/1000000 := rfl
  have hmai : eltZn.most_abundant_isotope = 64 := rfl
  have hmxs : eltZn.max_neutron_shift = 6 := rfl
  have hsel : specZn.element = eltZn := rfl
  have hsiso : specZn.isotope = 0 := rfl
  have hg64 : eltZn.isotopesGet 64 = some ⟨63929142/1000000, 482680/1000000, 64, 0⟩ := rfl
  norm_num [IsotopicDistribution.fill_from_composition, IsotopicDistribution.update_order,
    IsotopicDistribution.make_monoisotopic_peak, NumPeaksSpec.num_peaks,
    compositionMaxVariants, ChemicalCompositionMap.mass, ChemicalCompositionMap.calc_mass,
    entryMass, hmam, hmai, hmxs, hsel, hsiso, hg64, IsotopicDistribution.mk.injEq,
    Peak.mk.injEq]

/-- Helper: The per-element constants built for zinc. -/
theorem zn_phic :
    PhiConstants.from_element eltZn =
    ⟨6, "Zn",
      ⟨[1, 0, 27975/48268, -(2051/24134), 4756/12067, 0, 0],
        [0, 0, -(27975/24134), -(6153/24134), -(1053900239/1164899912),
          286883625/1164899912, 56389180323633/56227388952416]⟩,
      ⟨[1, 0, 614760257725/1028577275352, -(137267537477/1542865913028),
        161525279032/385716478257, 0, 0],
        [0, 0, -(614760257725/514288637676), -(137267537477/514288637676),
          -(508156393026990756593783/528985605685272013361952),
          421933133583183081299125/1586956817055816040085856,
          597680318869183789171103515949869547/544102572996184528338815925544207104]⟩⟩ := by
  simp only [PhiConstants.from_element, zn_pfe_e, zn_pfe_m]
  rfl

/-- Helper: The full distribution `from_composition` builds for `{Zn: 250000}`:
the working order 4 is below the element order 6, so `update` leaves the
zinc constants untouched. -/
theorem zn_dist :
    IsotopicDistribution.from_composition ⟨[(specZn, 250000)], none⟩
      (NumPeaksSpec.fromI32
        ((NumPeaksSpec.FixedCount 5).num_peaks ⟨[(specZn, 250000)], none⟩)) =
    ⟨⟨[(specZn, 250000)], none⟩,
      ⟨[("Zn", ⟨6, "Zn",
        ⟨[1, 0, 27975/48268, -(2051/24134), 4756/12067, 0, 0],
          [0, 0, -(27975/24134), -(6153/24134), -(1053900239/1164899912),
            286883625/1164899912, 56389180323633/56227388952416]⟩,
        ⟨[1, 0, 614760257725/1028577275352, -(137267537477/1542865913028),
          161525279032/385716478257, 0, 0],
          [0, 0, -(614760257725/514288637676), -(137267537477/514288637676),
            -(508156393026990756593783/528985605685272013361952),
            421933133583183081299125/1586956817055816040085856,
            597680318869183789171103515949869547/544102572996184528338815925544207104]⟩⟩)],
        4⟩,
      4, 0, ⟨31964571/2, 12067/25000⟩, 1500000⟩ := by
  have hnp : NumPeaksSpec.fromI32 ((NumPeaksSpec.FixedCount 5).num_peaks
      ⟨[(specZn, 250000)], none⟩) = NumPeaksSpec.FixedCount 4 := rfl
  have hpop : IsotopicDistribution.populate_constants
      ⟨⟨[(specZn, 250000)], none⟩, ⟨[], 4⟩, 4, 0, ⟨31964571/2, 12067/25000⟩, 1500000⟩ =
      ⟨⟨[(specZn, 250000)], none⟩, ⟨[("Zn", PhiConstants.from_element eltZn)], 4⟩, 4, 0,
        ⟨31964571/2, 12067/25000⟩, 1500000⟩ := rfl
  rw [hnp]
  unfold IsotopicDistribution.from_composition
  rw [zn_fill, hpop, zn_phic]

/-- Helper: The combined power sums of `{Zn: 250000}` at orders 0..4; the order-1
entry is zero because zinc has no shift-1 isotope. -/
theorem zn_phiv :
    (IsotopicDistribution.from_composition ⟨[(specZn, 250000)], none⟩
      (NumPeaksSpec.fromI32
        ((NumPeaksSpec.FixedCount 5).num_peaks ⟨[(specZn, 250000)], none⟩))).phi_values =
    [0, 0, -(3496875000/12067), -(769125000/12067), -(32934382468750/145612489)] := by
  rw [zn_dist]
  have hsel : specZn.element = eltZn := rfl
  have hsym : eltZn.symbol = "Zn" := rfl
  have hzz : (("Zn" : String) == "Zn") = true := rfl
  norm_num [IsotopicDistribution.phi_values, IsotopicDistribution.phi_for,
    IsotopicConstants.nth_element_power_sum, IsotopicConstants.get, List.find?,
    List.range', hsel, hsym, hzz]

/-- Helper: The Newton inversion of the combined power sums: the probability-side
elementary symmetric polynomial coefficients, zero at the odd order 1. -/
theorem zn_esp2 :
    update_elementary_symmetric_polynomial
      ⟨[], [0, 0, -(3496875000/12067), -(769125000/12067), -(32934382468750/145612489)]⟩
      1500000 =
    ⟨[1, 0, 1748437500/12067, -(256375000/12067), 3057050158597484375/291224978],
      [0, 0, -(3496875000/12067), -(769125000/12067), -(32934382468750/145612489)]⟩ := by
  norm_num [update_elementary_symmetric_polynomial, updateEspStep, List.range']

/-- Helper: The probability vector of `{Zn: 250000}`: the order-1 entry is exactly
zero. -/
theorem zn_q :
    (IsotopicDistribution.from_composition ⟨[(specZn, 250000)], none⟩
      (NumPeaksSpec.fromI32
        ((NumPeaksSpec.FixedCount 5).num_peaks
          ⟨[(specZn, 250000)], none⟩))).probability_vector =
    [12067/25000, 0, 139875/2, 10255, 978256050751195/193072] := by
  have hpv : (IsotopicDistribution.from_composition ⟨[(specZn, 250000)], none⟩
      (NumPeaksSpec.fromI32
        ((NumPeaksSpec.FixedCount 5).num_peaks
          ⟨[(specZn, 250000)], none⟩))).probability_vector =
      List.mapIdx (fun i x => x *
        ((12067/25000 : ℚ) * (if i % 2 == 0 then (1 : ℚ) else -1)))
        (newton_optimization
          ⟨[], (IsotopicDistribution.from_composition ⟨[(specZn, 250000)], none⟩
            (NumPeaksSpec.fromI32
              ((NumPeaksSpec.FixedCount 5).num_peaks
                ⟨[(specZn, 250000)], none⟩))).phi_values⟩
          1500000).elementary_symmetric_polynomial := by
    rw [zn_dist]
    rfl
  rw [hpv, zn_phiv]
  have hnewton : newton_optimization
      ⟨[], [0, 0, -(3496875000/12067), -(769125000/12067), -(32934382468750/145612489)]⟩
      1500000 =
      update_elementary_symmetric_polynomial
        ⟨[], [0, 0, -(3496875000/12067), -(769125000/12067), -(32934382468750/145612489)]⟩
        1500000 := rfl
  rw [hnewton, zn_esp2]
  norm_num [List.mapIdx_eq_ofFn, List.ofFn_succ, List.ofFn_zero]

/-- Helper: The mass-mixed power sums of `{Zn: 250000}` for the zinc entry. -/
theorem zn_phim :
    (IsotopicDistribution.from_composition ⟨[(specZn, 250000)], none⟩
      (NumPeaksSpec.fromI32
        ((NumPeaksSpec.FixedCount 5).num_peaks
          ⟨[(specZn, 250000)], none⟩))).phi_values_mass specZn =
    [0, 0, -(149034830908508575/514288637676), -(32779673709367235/514288637676),
      -(119645084596845813416591124539/528985605685272013361952)] := by
  rw [zn_dist]
  have hsel : specZn.element = eltZn := rfl
  have hsym : eltZn.symbol = "Zn" := rfl
  have hzz : (("Zn" : String) == "Zn") = true := rfl
  have heq : elementEqRust eltZn eltZn = true := rfl
  norm_num [IsotopicDistribution.phi_values_mass, IsotopicDistribution.phi_mass_for,
    IsotopicConstants.nth_element_power_sum, IsotopicConstants.nth_element_power_sum_mass,
    IsotopicConstants.get, List.find?, List.range', hsel, hsym, hzz, heq]

/-- Helper: The Newton inversion of the mass-mixed power sums. -/
theorem zn_psi :
    update_elementary_symmetric_polynomial
      ⟨[], [0, 0, -(149034830908508575/514288637676), -(32779673709367235/514288637676),
        -(119645084596845813416591124539/528985605685272013361952)]⟩
      1500000 =
    ⟨[1, 0, 149034830908508575/1028577275352, -(32779673709367235/1542865913028),
        1563477140214951246778986389/148942103780071008],
      [0, 0, -(149034830908508575/514288637676), -(32779673709367235/514288637676),
        -(119645084596845813416591124539/528985605685272013361952)]⟩ := by
  norm_num [update_elementary_symmetric_polynomial, updateEspStep, List.range']

/-- Helper: The per-element polynomial map of `{Zn: 250000}`. -/
theorem zn_bp :
    (IsotopicDistribution.from_composition ⟨[(specZn, 250000)], none⟩
      (NumPeaksSpec.fromI32
        ((NumPeaksSpec.FixedCount 5).num_peaks
          ⟨[(specZn, 250000)], none⟩))).build_polynomial_map =
    [("Zn", [1, 0, 149034830908508575/1028577275352, -(32779673709367235/1542865913028),
      1563477140214951246778986389/148942103780071008])] := by
  have hbp : (IsotopicDistribution.from_composition ⟨[(specZn, 250000)], none⟩
      (NumPeaksSpec.fromI32
        ((NumPeaksSpec.FixedCount 5).num_peaks
          ⟨[(specZn, 250000)], none⟩))).build_polynomial_map =
      [("Zn", (newton_optimization
        ⟨[], (IsotopicDistribution.from_composition ⟨[(specZn, 250000)], none⟩
          (NumPeaksSpec.fromI32
            ((NumPeaksSpec.FixedCount 5).num_peaks
              ⟨[(specZn, 250000)], none⟩))).phi_values_mass specZn⟩
        1500000).elementary_symmetric_polynomial)] := rfl
  rw [hbp, zn_phim]
  have hnewton : newton_optimization
      ⟨[], [0, 0, -(149034830908508575/514288637676), -(32779673709367235/514288637676),
        -(119645084596845813416591124539/528985605685272013361952)]⟩
      1500000 =
      update_elementary_symmetric_polynomial
        ⟨[], [0, 0, -(149034830908508575/514288637676), -(32779673709367235/514288637676),
          -(119645084596845813416591124539/528985605685272013361952)]⟩
        1500000 := rfl
  rw [hnewton, zn_psi]

/-- Helper: The center-mass vector of `{Zn: 250000}`: a zero placeholder is recorded
at order 1, because `center_mass_vector` pushes `0.0` wherever the
probability entry is zero. -/
theorem zn_cm :
    (IsotopicDistribution.from_composition ⟨[(specZn, 250000)], none⟩
      (NumPeaksSpec.fromI32
        ((NumPeaksSpec.FixedCount 5).num_peaks
          ⟨[(specZn, 250000)], none⟩))).center_mass_vector
      [12067/25000, 0, 139875/2, 10255, 978256050751195/193072] =
    [31964571/2, 0, 15982287496891/1000000, 3196457699597/200000,
      1563477140214951246778986389/97825605075119500000] := by
  have hsel : specZn.element = eltZn := rfl
  have hsym : eltZn.symbol = "Zn" := rfl
  have hmam : eltZn.most_abundant_mass = 63929142/1000000 := rfl
  have hzz : (("Zn" : String) == "Zn") = true := rfl
  have hrange : List.range (Int.toNat (4 + 1)) = [0, 1, 2, 3, 4] := rfl
  have hrange2 : List.range 5 = [0, 1, 2, 3, 4] := rfl
  have hrange3 : List.range (Int.toNat 5) = [0, 1, 2, 3, 4] := rfl
  simp only [IsotopicDistribution.center_mass_vector, zn_bp]
  rw [zn_dist]
  norm_num [epMapGet, List.find?, hrange, hrange2, hrange3, hsel, hsym, hmam, hzz]

/-- Helper: The collection loop on the `{Zn: 250000}` peak pairs: the monoisotopic
intensity is below the 1e-10 cutoff, so the zero-probability order-1
placeholder `(mz 0, intensity 0)` is still collected as a "leading" peak;
the order-2 peak is the first real one. -/
theorem zn_collect :
    collectPeaks 0 PROTON (3057098543033584353/603350000)
      [(31964571/2, 12067/25000), (0, 0), (15982287496891/1000000, 139875/2),
        (3196457699597/200000, 10255),
        (1563477140214951246778986389/97825605075119500000, 978256050751195/193072)]
      false =
    [⟨31964571/2, 291224978/3057098543033584353⟩, ⟨0, 0⟩,
      ⟨15982287496891/1000000, 14065596875000/1019032847677861451⟩,
      ⟨3196457699597/200000, 6187354250000/3057098543033584353⟩,
      ⟨1563477140214951246778986389/97825605075119500000,
        3057050158597484375/3057098543033584353⟩] := by
  norm_num [collectPeaks, Peak.mk.injEq]

/-- Helper: The final ascending-m/z sort puts the zero-mass placeholder first. -/
theorem zn_sort :
    sortPeaksByMz
      [⟨31964571/2, 291224978/3057098543033584353⟩, ⟨0, 0⟩,
        ⟨15982287496891/1000000, 14065596875000/1019032847677861451⟩,
        ⟨3196457699597/200000, 6187354250000/3057098543033584353⟩,
        ⟨1563477140214951246778986389/97825605075119500000,
          3057050158597484375/3057098543033584353⟩] =
    [⟨0, 0⟩, ⟨31964571/2, 291224978/3057098543033584353⟩,
      ⟨15982287496891/1000000, 14065596875000/1019032847677861451⟩,
      ⟨3196457699597/200000, 6187354250000/3057098543033584353⟩,
      ⟨1563477140214951246778986389/97825605075119500000,
        3057050158597484375/3057098543033584353⟩] := by
  norm_num [sortPeaksByMz, List.insertionSort, List.orderedInsert, peakLe, Peak.mk.injEq]

/-- Helper: End-to-end run of the BRAIN entry point on `{Zn: 250000}` with
`FixedCount 5` and neutral charge: the head of the sorted output is the
zero-mass placeholder peak, not the monoisotopic peak. -/
theorem zn_variants :
    isotopic_variants ⟨[(specZn, 250000)], none⟩ (.FixedCount 5) 0 PROTON =
    [⟨0, 0⟩, ⟨31964571/2, 291224978/3057098543033584353⟩,
      ⟨15982287496891/1000000, 14065596875000/1019032847677861451⟩,
      ⟨3196457699597/200000, 6187354250000/3057098543033584353⟩,
      ⟨1563477140214951246778986389/97825605075119500000,
        3057050158597484375/3057098543033584353⟩] := by
  have hm : isotopic_variants ⟨[(specZn, 250000)], none⟩ (.FixedCount 5) 0 PROTON =
      (IsotopicDistribution.from_composition ⟨[(specZn, 250000)], none⟩
        (NumPeaksSpec.fromI32
          ((NumPeaksSpec.FixedCount 5).num_peaks
            ⟨[(specZn, 250000)], none⟩))).isotopic_variants_method 0 PROTON := rfl
  have hord : (IsotopicDistribution.from_composition ⟨[(specZn, 250000)], none⟩
      (NumPeaksSpec.fromI32
        ((NumPeaksSpec.FixedCount 5).num_peaks
          ⟨[(specZn, 250000)], none⟩))).order = 4 := by rw [zn_dist]
  rw [hm]
  simp only [IsotopicDistribution.isotopic_variants_method]
  rw [zn_q, zn_cm, hord]
  have htot : ([12067/25000, 0, 139875/2, 10255, 978256050751195/193072] : List ℚ).sum =
      3057098543033584353/603350000 := by
    norm_num [List.sum_cons, List.sum_nil]
  rw [htot]
  have hpairs : (([31964571/2, 0, 15982287496891/1000000, 3196457699597/200000,
      1563477140214951246778986389/97825605075119500000] : List ℚ).zip
      ([12067/25000, 0, 139875/2, 10255, 978256050751195/193072] : List ℚ)).take
      ((4 : Int).toNat + 1) =
      [((31964571 : ℚ)/2, (12067 : ℚ)/25000), (0, 0),
        ((15982287496891 : ℚ)/1000000, (139875 : ℚ)/2),
        ((3196457699597 : ℚ)/200000, (10255 : ℚ)),
        ((1563477140214951246778986389 : ℚ)/97825605075119500000,
          (978256050751195 : ℚ)/193072)] := rfl
  rw [hpairs, zn_collect, zn_sort]

/-- C7 (amended): for every composition, peak-count strategy, charge and
charge carrier, the BRAIN entry point `isotopic_variants` returns a list
sorted ascending by m/z (the sort runs unconditionally, after the m/z
conversion); and for every composition with nonnegative `max_variants`,
nonzero product of most-abundant abundances, and no fixed-isotope
specifications, the neutral-charge output contains the monoisotopic
(order-0) peak, whose mass equals the freshly computed composition mass
exactly (hence within 1e-6), and the lowest-mass (head) peak sits at or
below that mass — with equality refutable: the zinc counterexample sorts a
zero-mass placeholder peak ahead of the monoisotopic peak. -/
theorem c7_amended_sorted_and_contains_mono (comp : ChemicalCompositionMap)
    (npeaks : NumPeaksSpec) (charge : Int) (cc : ℚ) :
    List.Sorted peakLe (isotopic_variants comp npeaks charge cc) ∧
    (0 ≤ compositionMaxVariants comp →
      comp.composition.foldl
        (fun acc kv => acc *
          (((kv.1.element.isotopesGet kv.1.element.most_abundant_isotope).map
            Isotope.abundance).getD 0)) 1 ≠ 0 →
      (∀ kv ∈ comp.composition, kv.1.isotope = 0) →
      (∃ p ∈ isotopic_variants comp npeaks 0 cc, p.mz = comp.calc_mass) ∧
        ∀ h tl, isotopic_variants comp npeaks 0 cc = h :: tl →
          h.mz ≤ comp.calc_mass) := by
  constructor
  · exact (sortPeaksByMz_sorted_mem _).1
  · intro hmv hmono hiso
    obtain ⟨hc, hm, ho⟩ := from_composition_fields comp
      (NumPeaksSpec.fromI32 (npeaks.num_peaks comp)) hmv
    have hmain := brain_variants_sorted_and_mono
      (IsotopicDistribution.from_composition comp
        (NumPeaksSpec.fromI32 (npeaks.num_peaks comp))) cc ho
      (by rw [hm]; exact hmono)
    rw [hc, mSumOf_eq_calc_mass comp hiso] at hmain
    obtain ⟨hsorted, p, hp, hpz⟩ := hmain
    have hdef : isotopic_variants comp npeaks 0 cc =
        (IsotopicDistribution.from_composition comp
          (NumPeaksSpec.fromI32 (npeaks.num_peaks comp))).isotopic_variants_method
          0 cc := rfl
    rw [← hdef] at hsorted hp
    refine ⟨⟨p, hp, hpz⟩, ?_⟩
    intro h tl hres
    rw [hres] at hsorted hp
    rcases List.mem_cons.mp hp with hph | hptl
    · rw [hph] at hpz
      exact le_of_eq hpz
    · exact le_of_le_of_eq ((List.sorted_cons.mp hsorted).1 p hptl) hpz

/-- C7 (witness): the amended statement at the concrete composition `{X: 1}`
(no fixed isotope), fixed peak count 3 — the sortedness conjunct exercised at
the nonzero charge 2, the containment and head-bound conjuncts at neutral
charge, with every hypothesis discharged concretely. -/
theorem c7_amended_witness :
    (0 ≤ compositionMaxVariants ⟨[(specX, 1)], none⟩) ∧
      ((⟨[(specX, 1)], none⟩ : ChemicalCompositionMap).composition.foldl
        (fun acc kv => acc *
          (((kv.1.element.isotopesGet kv.1.element.most_abundant_isotope).map
            Isotope.abundance).getD 0)) 1 ≠ 0) ∧
      (∀ kv ∈ (⟨[(specX, 1)], none⟩ : ChemicalCompositionMap).composition,
        kv.1.isotope = 0) ∧
      List.Sorted peakLe (isotopic_variants ⟨[(specX, 1)], none⟩
        (.FixedCount 3) 2 PROTON) ∧
      (∃ p ∈ isotopic_variants ⟨[(specX, 1)], none⟩ (.FixedCount 3) 0 PROTON,
        p.mz = (⟨[(specX, 1)], none⟩ : ChemicalCompositionMap).calc_mass) ∧
      ∀ h tl, isotopic_variants ⟨[(specX, 1)], none⟩ (.FixedCount 3) 0 PROTON =
          h :: tl →
        h.mz ≤ (⟨[(specX, 1)], none⟩ : ChemicalCompositionMap).calc_mass := by
  have h1 : 0 ≤ compositionMaxVariants ⟨[(specX, 1)], none⟩ := by
    norm_num [compositionMaxVariants, specX, eltX]
  have h2 : (⟨[(specX, 1)], none⟩ : ChemicalCompositionMap).composition.foldl
      (fun acc kv => acc *
        (((kv.1.element.isotopesGet kv.1.element.most_abundant_isotope).map
          Isotope.abundance).getD 0)) 1 ≠ 0 := by
    norm_num [specX, eltX, Element.isotopesGet, List.find?]
  have h3 : ∀ kv ∈ (⟨[(specX, 1)], none⟩ : ChemicalCompositionMap).composition,
      kv.1.isotope = 0 := by
    intro kv hkv
    simp only [List.mem_singleton] at hkv
    rw [hkv]
    rfl
  have hall := c7_amended_sorted_and_contains_mono ⟨[(specX, 1)], none⟩
    (.FixedCount 3) 2 PROTON
  exact ⟨h1, h2, h3, hall.1, (hall.2 h1 h2 h3).1, (hall.2 h1 h2 h3).2⟩

/-- C7 (counterexamples): two refutations of the original mass clause.
(i) Fixed isotope: for `{X[11]: 1}` — one atom of the toy element fixed to
its heavier isotope — `composition.mass()` is `11` (the fixed isotope's
mass) but every BRAIN center mass is built from the most-abundant mass `10`,
so the sorted output's lowest-mass head peak misses `composition.mass()` by
at least `1`, far beyond the claimed `1e-6`.  (ii) The lowest-mass
formulation fails even with no fixed isotopes, on catalog data: zinc has no
isotope at mass number 65, so the order-1 probability is exactly zero and
`center_mass_vector` records a `(mz 0, intensity 0)` placeholder for that
order; for `{Zn: 250000}` (a zinc nanoparticle) the monoisotopic relative
intensity is below the collector's 1e-10 "real peak" cutoff, the placeholder
is therefore collected as a leading peak, and the ascending sort puts it
first — the lowest-mass peak of the output has m/z `0` while
`composition.mass()` is `15982285.5`.  The monoisotopic peak itself is still
contained, at the exact mass, as the amended theorem states. -/
theorem c7_mass_match_counterexamples :
    ((⟨[(specX11, 1)], none⟩ : ChemicalCompositionMap).mass = 11 ∧
      ∃ h tl, isotopic_variants ⟨[(specX11, 1)], none⟩ (.FixedCount 3) 0 PROTON =
        h :: tl ∧
        |h.mz - (⟨[(specX11, 1)], none⟩ : ChemicalCompositionMap).mass| >
          1/1000000) ∧
    ((⟨[(specZn, 250000)], none⟩ : ChemicalCompositionMap).mass = 31964571/2 ∧
      (∀ kv ∈ (⟨[(specZn, 250000)], none⟩ : ChemicalCompositionMap).composition,
        kv.1.isotope = 0) ∧
      ∃ tl, isotopic_variants ⟨[(specZn, 250000)], none⟩ (.FixedCount 5) 0 PROTON =
        (⟨0, 0⟩ : Peak) :: tl ∧
        |(0 : ℚ) - (⟨[(specZn, 250000)], none⟩ : ChemicalCompositionMap).mass| >
          1/1000000) := by
  constructor
  · have hbeq : ((10 : Nat) == 11) = false := by decide
    have hbeq2 : ((11 : Nat) == 11) = true := by decide
    have hmass : (⟨[(specX11, 1)], none⟩ : ChemicalCompositionMap).mass = 11 := by
      norm_num [ChemicalCompositionMap.mass, ChemicalCompositionMap.calc_mass, entryMass,
        Element.isotopesGet, specX11, eltX, List.find?, hbeq, hbeq2]
    refine ⟨hmass, ?_⟩
    obtain ⟨hc, hm, ho⟩ := from_composition_fields ⟨[(specX11, 1)], none⟩
      (NumPeaksSpec.fromI32 ((NumPeaksSpec.FixedCount 3).num_peaks ⟨[(specX11, 1)], none⟩))
      (by norm_num [compositionMaxVariants, specX11, eltX])
    obtain ⟨hsorted, p, hp, hpmz⟩ := brain_variants_sorted_and_mono
      (IsotopicDistribution.from_composition ⟨[(specX11, 1)], none⟩
        (NumPeaksSpec.fromI32 ((NumPeaksSpec.FixedCount 3).num_peaks ⟨[(specX11, 1)], none⟩)))
      PROTON ho
      (by rw [hm]; norm_num [specX11, eltX, Element.isotopesGet, List.find?])
    rw [hc] at hpmz
    have hmsum : mSumOf ⟨[(specX11, 1)], none⟩ = 10 := by
      norm_num [mSumOf, specX11, eltX]
    rw [hmsum] at hpmz
    have hdef : isotopic_variants ⟨[(specX11, 1)], none⟩ (.FixedCount 3) 0 PROTON =
        (IsotopicDistribution.from_composition ⟨[(specX11, 1)], none⟩
          (NumPeaksSpec.fromI32 ((NumPeaksSpec.FixedCount 3).num_peaks
            ⟨[(specX11, 1)], none⟩))).isotopic_variants_method 0 PROTON := rfl
    rw [← hdef] at hp hsorted
    obtain ⟨h, tl, hres⟩ : ∃ h tl, isotopic_variants ⟨[(specX11, 1)], none⟩
        (.FixedCount 3) 0 PROTON = h :: tl := by
      cases hres : isotopic_variants ⟨[(specX11, 1)], none⟩ (.FixedCount 3) 0 PROTON with
      | nil => rw [hres] at hp; exact absurd hp (by simp)
      | cons h tl => exact ⟨h, tl, rfl⟩
    refine ⟨h, tl, hres, ?_⟩
    have hple : h.mz ≤ p.mz := by
      rw [hres] at hp hsorted
      rcases List.mem_cons.mp hp with hph | hptl
      · rw [hph]
      · exact (List.sorted_cons.mp hsorted).1 p hptl
    rw [hmass]
    rw [hpmz] at hple
    have : h.mz - 11 ≤ -1 := by linarith
    rw [abs_of_nonpos (by linarith)]
    linarith
  · have hsel : specZn.element = eltZn := rfl
    have hsiso : specZn.isotope = 0 := rfl
    have hmam : eltZn.most_abundant_mass = 63929142/1000000 := rfl
    have hmass : (⟨[(specZn, 250000)], none⟩ : ChemicalCompositionMap).mass =
        31964571/2 := by
      norm_num [ChemicalCompositionMap.mass, ChemicalCompositionMap.calc_mass,
        entryMass, hsel, hsiso, hmam]
    refine ⟨hmass, ?_, ?_⟩
    · intro kv hkv
      simp only [List.mem_singleton] at hkv
      rw [hkv]
      rfl
    · refine ⟨[⟨31964571/2, 291224978/3057098543033584353⟩,
        ⟨15982287496891/1000000, 14065596875000/1019032847677861451⟩,
        ⟨3196457699597/200000, 6187354250000/3057098543033584353⟩,
        ⟨1563477140214951246778986389/97825605075119500000,
          3057050158597484375/3057098543033584353⟩], zn_variants, ?_⟩
      rw [hmass, zero_sub, abs_neg,
        abs_of_nonneg (by norm_num : (0 : ℚ) ≤ 31964571/2)]
      norm_num
